import Mathlib

/-!
# Message delivery hub: embedding and verified properties

A shallow embedding of `hub.go` and `client.go`.

* A `net.Conn` is a handle (a natural number) into a table of connection
  states.  A connection state holds the bytes the peer has sent and the hub
  has not read yet (`input`; the end of the list is end-of-stream), the bytes
  the hub has written (`output`), how many more bytes the transport accepts
  before writes start failing (`budget`, `none` for a transport that never
  fails) and whether `Close` was called.
* `Hub.clients` (a Go map) is an association list; `mapGet`, `mapSet` and
  `mapDelete` are the map operations.  The order of the list stands for the
  order in which the Go runtime iterates the map, which is unspecified; the
  theorems hold for every order.
* `uint8`, `uint16`, `uint32` and `uint64` are natural numbers reduced modulo
  `2^8`, `2^16`, `2^32` and `2^64` wherever the Go code can wrap or truncate.
* Each handler runs to completion without interleaving (the sequential
  behaviour of one goroutine).  The states carry no lock; the lock and unlock
  calls of `relayMessage` are kept, with its lookups and writes, in the
  sequence of events `relayMessageEvents`, whose writes replay to the state
  `relayMessage` computes.
* The `for` loop of `handleConnection` is `dispatchLoop`, bounded by a number
  of iterations; `handleConnection` allows one iteration more than there are
  unread bytes, and `handleConnection_isSome` shows that this is always enough.
-/

namespace MessageHub

/-! ## Constants (`hub.go` lines 11-22) -/

/-- Constant `MaxReceivers` of `hub.go`. -/
def MaxReceivers : Nat := 255

/-- Constant `MaxMessageLength` of `hub.go`: 1024 * 1024. -/
def MaxMessageLength : Nat := 1024 * 1024

/-- Message type tag `IdentityMessage` (iota = 0). -/
def IdentityMessage : Nat := 0

/-- Message type tag `ListMessage` (iota = 1). -/
def ListMessage : Nat := 1

/-- Message type tag `RelayMessage` (iota = 2). -/
def RelayMessage : Nat := 2

/-! ## Big-endian codec (`encoding/binary`, `io.ReadFull`) -/

/-- Big-endian encoding of `v` on `n` bytes, as `binary.Write` with
`binary.BigEndian` does for an unsigned integer of `n` bytes; a value that does
not fit is reduced modulo `256 ^ n` (the Go conversion to the fixed-width type). -/
def toBE : Nat → Nat → List Nat
  | 0, _ => []
  | n + 1, v => toBE n (v / 256) ++ [v % 256]

/-- Big-endian value of a byte sequence. -/
def fromBE (bs : List Nat) : Nat :=
  bs.foldl (fun acc b => acc * 256 + b % 256) 0

/-- Function `io.ReadFull` on the unread input: exactly `n` bytes, or an error
(`none`) after consuming whatever was left before the end of the stream. -/
def readFull (n : Nat) (inp : List Nat) : Option (List Nat) × List Nat :=
  if n ≤ inp.length then (some (inp.take n), inp.drop n) else (none, [])

/-- Function `binary.Read` of an unsigned big-endian integer of `n` bytes:
`io.ReadFull` of `n` bytes, then decoding.  On error no value is produced. -/
def binaryRead (n : Nat) (inp : List Nat) : Option Nat × List Nat :=
  match readFull n inp with
  | (some bs, rest) => (some (fromBE bs), rest)
  | (none, rest) => (none, rest)

/-! ## Connections and the hub state -/

/-- State of one `net.Conn` as seen from the hub. -/
structure Conn where
  /-- Bytes sent by the peer and not read yet; then end-of-stream. -/
  input : List Nat
  /-- Bytes written by the hub, oldest first. -/
  output : List Nat
  /-- Number of bytes the transport still accepts; `none` never fails. -/
  budget : Option Nat
  /-- Whether `Close` was called on the connection. -/
  closed : Bool

/-- Method `Write` of a connection: all of `bs` is appended when the transport
accepts it; otherwise the accepted part is appended, an error is reported
(`false`) and the transport accepts nothing more. -/
def Conn.write (c : Conn) (bs : List Nat) : Conn × Bool :=
  match c.budget with
  | none => ({ c with output := c.output ++ bs }, true)
  | some k =>
    if bs.length ≤ k then
      ({ c with output := c.output ++ bs, budget := some (k - bs.length) }, true)
    else
      ({ c with output := c.output ++ bs.take k, budget := some 0 }, false)

/-- Lookup `m[k]` with the `ok` result of a Go map. -/
def mapGet : List (Nat × Nat) → Nat → Option Nat
  | [], _ => none
  | (k', v) :: m, k => if k' = k then some v else mapGet m k

/-- Builtin `delete(m, k)` of a Go map. -/
def mapDelete (m : List (Nat × Nat)) (k : Nat) : List (Nat × Nat) :=
  m.filter (fun e => decide (e.1 ≠ k))

/-- Assignment `m[k] = v` of a Go map. -/
def mapSet (m : List (Nat × Nat)) (k v : Nat) : List (Nat × Nat) :=
  mapDelete m k ++ [(k, v)]

/-- Keys of a Go map, in iteration order. -/
def mapKeys (m : List (Nat × Nat)) : List Nat :=
  m.map Prod.fst

/-- Struct `Hub` of `hub.go` (the mutex is not modelled). -/
structure Hub where
  /-- Field `clients map[uint64]net.Conn`. -/
  clients : List (Nat × Nat)
  /-- Field `nextUserID uint64`. -/
  nextUserID : Nat

/-- The hub together with the connections its handles refer to. -/
structure World where
  /-- The hub. -/
  hub : Hub
  /-- State of every connection handle. -/
  conns : Nat → Conn

/-- Replace the state of connection `c`. -/
def World.setConn (w : World) (c : Nat) (v : Conn) : World :=
  { w with conns := fun d => if d = c then v else w.conns d }

/-- Record that the unread input of connection `c` is now `inp`. -/
def World.setInput (w : World) (c : Nat) (inp : List Nat) : World :=
  w.setConn c { w.conns c with input := inp }

/-- Write `bs` to connection `c`; the flag is `false` when the write failed. -/
def World.write (w : World) (c : Nat) (bs : List Nat) : World × Bool :=
  (w.setConn c ((w.conns c).write bs).1, ((w.conns c).write bs).2)

/-- Method `Close` of a connection: nothing can be written afterwards. -/
def World.close (w : World) (c : Nat) : World :=
  w.setConn c { w.conns c with closed := true, budget := some 0 }

/-! ## The hub (`hub.go`) -/

/-- Function `NewHub`: empty registry, `nextUserID` 1. -/
def NewHub : Hub :=
  { clients := [], nextUserID := 1 }

/-- Method `Hub.registerClient`: returns the identity and the new state. -/
def registerClient (w : World) (conn : Nat) : Nat × World :=
  let userID := w.hub.nextUserID
  (userID,
    { w with hub := { clients := mapSet w.hub.clients userID conn,
                      nextUserID := (w.hub.nextUserID + 1) % 2 ^ 64 } })

/-- Method `Hub.unregisterClient`. -/
def unregisterClient (w : World) (userID : Nat) : World :=
  { w with hub := { w.hub with clients := mapDelete w.hub.clients userID } }

/-- Method `Hub.HandleIdentityMessage`: the identity as 8 big-endian bytes; the
error of the write is dropped. -/
def HandleIdentityMessage (w : World) (conn userID : Nat) : World :=
  (w.write conn (toBE 8 userID)).1

/-- The first loop of `HandleListMessage` (lines 92-97): the keys of the
registry other than `excludeUserID`, in iteration order. -/
def listUserIDs (h : Hub) (excludeUserID : Nat) : List Nat :=
  (mapKeys h.clients).filter (fun userID => decide (userID ≠ excludeUserID))

/-- The second loop of `HandleListMessage` (lines 109-116): one write per
identity, stopping at the first write that fails. -/
def writeUserIDs : List Nat → World → Nat → World
  | [], w, _ => w
  | userID :: rest, w, conn =>
    match w.write conn (toBE 8 userID) with
    | (w1, true) => writeUserIDs rest w1 conn
    | (w1, false) => w1

/-- Method `Hub.HandleListMessage`. -/
def HandleListMessage (w : World) (conn excludeUserID : Nat) : World :=
  let userIDs := listUserIDs w.hub excludeUserID
  match w.write conn (toBE 2 userIDs.length) with
  | (w1, false) => w1
  | (w1, true) => writeUserIDs userIDs w1 conn

/-- Body of the loop of `relayMessage` for one receiver (lines 151-155): three
writes whose errors are dropped when the receiver is registered, nothing
otherwise. -/
def relayOne (message : List Nat) (w : World) (receiverID : Nat) : World :=
  match mapGet w.hub.clients receiverID with
  | some conn =>
    let w1 := (w.write conn (toBE 1 RelayMessage)).1
    let w2 := (w1.write conn (toBE 4 message.length)).1
    (w2.write conn message).1
  | none => w

/-- Method `Hub.relayMessage`. -/
def relayMessage (w : World) (receivers message : List Nat) : World :=
  receivers.foldl (relayOne message) w

/-- The loop of `HandleRelayMessage` that fills `receivers` (lines 123-126):
`n` reads of 8 bytes whose errors are dropped; an entry whose read failed keeps
the zero value. -/
def readReceivers : Nat → List Nat → List Nat × List Nat
  | 0, inp => ([], inp)
  | n + 1, inp =>
    let r := binaryRead 8 inp
    let rs := readReceivers n r.2
    (r.1.getD 0 :: rs.1, rs.2)

/-- The reads of `HandleRelayMessage` (lines 120-141) on the unread input: the
receivers and the message handed to `relayMessage`, or `none` when the handler
returns early, and the input left unread. -/
def readRelayRequest (inp : List Nat) : Option (List Nat × List Nat) × List Nat :=
  let receiverCount := binaryRead 1 inp
  let receivers := readReceivers (receiverCount.1.getD 0) receiverCount.2
  let messageLength := binaryRead 4 receivers.2
  if messageLength.1.getD 0 > MaxMessageLength then
    (none, messageLength.2)
  else
    match readFull (messageLength.1.getD 0) messageLength.2 with
    | (none, rest) => (none, rest)
    | (some message, rest) => (some (receivers.1, message), rest)

/-- Method `Hub.HandleRelayMessage`. -/
def HandleRelayMessage (w : World) (conn : Nat) : World :=
  match readRelayRequest (w.conns conn).input with
  | (some (receivers, message), rest) => relayMessage (w.setInput conn rest) receivers message
  | (none, rest) => w.setInput conn rest

/-- Function `readMessageType`: one byte, or an error. -/
def readMessageType (inp : List Nat) : Option Nat × List Nat :=
  binaryRead 1 inp

/-- The `switch` of `handleConnection` (lines 52-61). -/
def dispatch (w : World) (conn userID messageType : Nat) : World :=
  if messageType = IdentityMessage then HandleIdentityMessage w conn userID
  else if messageType = ListMessage then HandleListMessage w conn userID
  else if messageType = RelayMessage then HandleRelayMessage w conn
  else w

/-- The `for` loop of `handleConnection` (lines 42-62), at most `fuel`
iterations: `some` state when the loop returned, `none` when the iterations
ran out. -/
def dispatchLoop : Nat → World → Nat → Nat → Option World
  | 0, _, _, _ => none
  | fuel + 1, w, conn, userID =>
    match readMessageType (w.conns conn).input with
    | (none, rest) => some (w.setInput conn rest)
    | (some messageType, rest) =>
      dispatchLoop fuel (dispatch (w.setInput conn rest) conn userID messageType) conn userID

/-- Method `Hub.handleConnection`: register, run the loop, then the deferred
`unregisterClient` and `conn.Close`.  Every iteration that does not return
consumes the tag byte, so one more iteration than unread bytes is enough. -/
def handleConnection (w : World) (conn : Nat) : Option World :=
  let r := registerClient w conn
  match dispatchLoop ((w.conns conn).input.length + 1) r.2 conn r.1 with
  | some w2 => some ((unregisterClient w2 r.1).close conn)
  | none => none

/-! ## Sequences of registry calls -/

/-- One call of a registry method by some connection goroutine. -/
inductive RegistryCall where
  /-- Call `registerClient(conn)`. -/
  | register (conn : Nat)
  /-- Call `unregisterClient(userID)`. -/
  | unregister (userID : Nat)

/-- Run a sequence of registry calls; the first component lists the identities
the `registerClient` calls returned, in issuance order. -/
def runCalls : World → List RegistryCall → List Nat × World
  | w, [] => ([], w)
  | w, RegistryCall.register conn :: rest =>
    let r := registerClient w conn
    let t := runCalls r.2 rest
    (r.1 :: t.1, t.2)
  | w, RegistryCall.unregister userID :: rest =>
    runCalls (unregisterClient w userID) rest

/-- Whether a registry call is a `registerClient`. -/
def isReg : RegistryCall → Bool
  | RegistryCall.register _ => true
  | RegistryCall.unregister _ => false

/-! ## The client (`client.go`) and the test helper (`main_test.go`) -/

/-- The loop of `SendRelayMessage` that writes the receivers (lines 77-79). -/
def writeReceivers : List Nat → List Nat
  | [] => []
  | receiver :: rest => toBE 8 receiver ++ writeReceivers rest

/-- Method `Client.SendRelayMessage`: the bytes written to the connection and
whether an error is returned (`true`).  The errors of the writes are dropped
by the code, so the transport is taken to accept them. -/
def SendRelayMessage (receivers message : List Nat) : List Nat × Bool :=
  if receivers.length > MaxReceivers then ([], true)
  else if message.length > MaxMessageLength then ([], true)
  else
    (toBE 1 RelayMessage ++ toBE 1 receivers.length ++ writeReceivers receivers
      ++ toBE 4 message.length ++ message, false)

/-- What one iteration of the loop of `Client.ReceiveMessages` does. -/
inductive Received where
  /-- The loop returned (end of stream or read error). -/
  | stop
  /-- A frame type other than `RelayMessage` was read and ignored. -/
  | ignored (messageType : Nat)
  /-- A relay delivery was read; its payload is printed. -/
  | delivery (messageType : Nat) (message : List Nat)

/-- One iteration of the loop of `Client.ReceiveMessages` (lines 87-110) on the
bytes the hub wrote: what was received and the bytes left unread. -/
def receiveMessage (inp : List Nat) : Received × List Nat :=
  match binaryRead 1 inp with
  | (none, rest) => (Received.stop, rest)
  | (some messageType, rest) =>
    if messageType = RelayMessage then
      let messageLength := binaryRead 4 rest
      match readFull (messageLength.1.getD 0) messageLength.2 with
      | (none, rest2) => (Received.stop, rest2)
      | (some message, rest2) => (Received.delivery messageType message, rest2)
    else (Received.ignored messageType, rest)

/-- Method `Read` of a connection, called once on a buffer of `n` bytes, where
`inp` is what the peer sends before it closes and `arrived` is how many of
these bytes have arrived when the call returns.  The call blocks until one
byte has arrived (an `arrived` of zero counts as one) and hands over what has
arrived, at most `n` bytes; it does not wait for the buffer to be full.  The
result is the buffer after the call (the bytes not filled stay zero), or an
error at end of stream, and the bytes left unread.  A buffer of length zero is
read without error. -/
def connRead (n arrived : Nat) (inp : List Nat) : Option (List Nat) × List Nat :=
  if n = 0 then (some [], inp)
  else if inp = [] then (none, [])
  else
    (some (inp.take (min n (max arrived 1))
        ++ List.replicate (n - min n (min (max arrived 1) inp.length)) 0),
      inp.drop (min n (max arrived 1)))

/-- Test helper `checkReceivedMessage`: `true` when no `Fatalf` or `Errorf` is
reached.  The tag and the length are read with `binary.Read` (which waits for
all their bytes); the payload is read with a single `conn.Read` (line 108), at
which `arrived` bytes of the payload have arrived. -/
def checkReceivedMessage (arrived : Nat) (inp expectedMessage : List Nat) : Bool :=
  match binaryRead 1 inp with
  | (none, _) => false
  | (some messageType, rest) =>
    if messageType ≠ RelayMessage then false
    else
      match binaryRead 4 rest with
      | (none, _) => false
      | (some messageLength, rest2) =>
        match connRead messageLength arrived rest2 with
        | (none, _) => false
        | (some receivedMessage, _) => decide (receivedMessage = expectedMessage)

/-- Method `Client.sendIdentityMessage` given the bytes the hub answers with:
the bytes written, the `userID` stored (`none` when an error is returned) and the
answer bytes left unread. -/
def sendIdentityMessage (reply : List Nat) : List Nat × Option Nat × List Nat :=
  (toBE 1 IdentityMessage, binaryRead 8 reply)

/-- The loop of `Client.SendListMessage` that reads the identities (lines
56-62): `none` at the first read that fails. -/
def readUserIDs : Nat → List Nat → Option (List Nat) × List Nat
  | 0, inp => (some [], inp)
  | n + 1, inp =>
    match binaryRead 8 inp with
    | (none, rest) => (none, rest)
    | (some userID, rest) =>
      match readUserIDs n rest with
      | (none, rest2) => (none, rest2)
      | (some userIDs, rest2) => (some (userID :: userIDs), rest2)

/-- Method `Client.SendListMessage` given the bytes the hub answers with: the
bytes written, the identities returned (`none` when an error is returned) and
the answer bytes left unread. -/
def SendListMessage (reply : List Nat) : List Nat × Option (List Nat) × List Nat :=
  match binaryRead 2 reply with
  | (none, rest) => (toBE 1 ListMessage, none, rest)
  | (some count, rest) => (toBE 1 ListMessage, readUserIDs count rest)

/-! ## The lock and the writes of `relayMessage`, in program order -/

/-- What `relayMessage` does to the registry lock and to the connections, in
program order. -/
inductive RelayEvent where
  /-- Call `h.mu.Lock()` (line 147). -/
  | lock
  /-- The deferred `h.mu.Unlock()` (line 148), run when the function returns. -/
  | unlock
  /-- Lookup `h.clients[receiverID]` (line 151). -/
  | lookup (receiverID : Nat)
  /-- A write of `bytes` to the connection `conn` (lines 152-154). -/
  | write (conn : Nat) (bytes : List Nat)

deriving instance DecidableEq for RelayEvent

/-- The events of one iteration of the loop of `relayMessage` (lines 151-155). -/
def relayOneEvents (h : Hub) (message : List Nat) (receiverID : Nat) : List RelayEvent :=
  match mapGet h.clients receiverID with
  | some conn =>
    [RelayEvent.lookup receiverID, RelayEvent.write conn (toBE 1 RelayMessage),
      RelayEvent.write conn (toBE 4 message.length), RelayEvent.write conn message]
  | none => [RelayEvent.lookup receiverID]

/-- The events of `relayMessage` (lines 146-157): the lock is taken, the loop
runs over the receivers in order, and the deferred unlock runs last. -/
def relayMessageEvents (h : Hub) (receivers message : List Nat) : List RelayEvent :=
  RelayEvent.lock :: (receivers.flatMap (relayOneEvents h message) ++ [RelayEvent.unlock])

/-- The effect of a sequence of events on the connections: a write is
performed (its error dropped), the other events leave them alone. -/
def applyEvents : World → List RelayEvent → World
  | w, [] => w
  | w, RelayEvent.write conn bytes :: rest => applyEvents (w.write conn bytes).1 rest
  | w, _ :: rest => applyEvents w rest

/-- The writes of a sequence of events that are performed while the exclusive
lock is held (`held` tells whether it is held at the start). -/
def writesWhileLocked : Bool → List RelayEvent → List (Nat × List Nat)
  | _, [] => []
  | _, RelayEvent.lock :: rest => writesWhileLocked true rest
  | _, RelayEvent.unlock :: rest => writesWhileLocked false rest
  | held, RelayEvent.lookup _ :: rest => writesWhileLocked held rest
  | true, RelayEvent.write conn bytes :: rest => (conn, bytes) :: writesWhileLocked true rest
  | false, RelayEvent.write _ _ :: rest => writesWhileLocked false rest

/-- The writes of a sequence of events that are performed while the exclusive
lock is not held. -/
def writesWhileUnlocked : Bool → List RelayEvent → List (Nat × List Nat)
  | _, [] => []
  | _, RelayEvent.lock :: rest => writesWhileUnlocked true rest
  | _, RelayEvent.unlock :: rest => writesWhileUnlocked false rest
  | held, RelayEvent.lookup _ :: rest => writesWhileUnlocked held rest
  | true, RelayEvent.write _ _ :: rest => writesWhileUnlocked true rest
  | false, RelayEvent.write conn bytes :: rest => (conn, bytes) :: writesWhileUnlocked false rest

/-! ## Worlds used as concrete inputs -/

/-- A connection on which nothing was sent or written and whose transport
never fails. -/
def idleConn : Conn :=
  { input := [], output := [], budget := none, closed := false }

/-- The state right after `NewHub`: empty registry, every connection idle. -/
def freshWorld : World :=
  { hub := NewHub, conns := fun _ => idleConn }

/-- Three clients registered on the connections 10, 11 and 12 of a fresh hub,
with the identities 1, 2 and 3. -/
def threeClients : World :=
  (registerClient (registerClient (registerClient freshWorld 10).2 11).2 12).2

/-- A registry with the 65537 identities 1, ..., 65537, each on a connection
of its own, as after 65537 registrations on a fresh hub. -/
def crowdedWorld : World :=
  { hub := { clients := (List.range 65537).map (fun i => (i + 1, i + 10)),
             nextUserID := 65538 },
    conns := fun _ => idleConn }

/-! # Theorems -/

/-! ## Codec -/

theorem toBE_length (n v : Nat) : (toBE n v).length = n := by
  induction n generalizing v with
  | zero => rfl
  | succ n ih => simp [toBE, ih]

theorem fromBE_snoc (bs : List Nat) (b : Nat) :
    fromBE (bs ++ [b]) = fromBE bs * 256 + b % 256 := by
  simp [fromBE, List.foldl_append]

theorem fromBE_toBE (n v : Nat) : fromBE (toBE n v) = v % 256 ^ n := by
  induction n generalizing v with
  | zero => simp [toBE, fromBE, Nat.mod_one]
  | succ n ih =>
    rw [toBE, fromBE_snoc, ih, Nat.mod_mod, pow_succ, Nat.mul_comm (256 ^ n) 256, Nat.mod_mul]
    omega

theorem readFull_append (bs rest : List Nat) :
    readFull bs.length (bs ++ rest) = (some bs, rest) := by
  simp [readFull]

theorem binaryRead_toBE (n v : Nat) (rest : List Nat) :
    binaryRead n (toBE n v ++ rest) = (some (v % 256 ^ n), rest) := by
  have h := readFull_append (toBE n v) rest
  rw [toBE_length] at h
  simp [binaryRead, h, fromBE_toBE]

/-! ## Connections -/

theorem World.ext_conns {w1 w2 : World} (hh : w1.hub = w2.hub)
    (hc : ∀ c, w1.conns c = w2.conns c) : w1 = w2 := by
  cases w1; cases w2
  simp only [World.mk.injEq]
  exact ⟨hh, funext hc⟩

@[simp] theorem setConn_hub (w : World) (c : Nat) (v : Conn) : (w.setConn c v).hub = w.hub := rfl

@[simp] theorem setConn_conns_same (w : World) (c : Nat) (v : Conn) :
    (w.setConn c v).conns c = v := by
  simp [World.setConn]

theorem setConn_conns_other (w : World) {c d : Nat} (v : Conn) (h : d ≠ c) :
    (w.setConn c v).conns d = w.conns d := by
  simp [World.setConn, h]

@[simp] theorem write_hub (w : World) (c : Nat) (bs : List Nat) : (w.write c bs).1.hub = w.hub := rfl

@[simp] theorem write_conns_same (w : World) (c : Nat) (bs : List Nat) :
    (w.write c bs).1.conns c = ((w.conns c).write bs).1 := by
  simp [World.write]

theorem write_conns_other (w : World) {c d : Nat} (bs : List Nat) (h : d ≠ c) :
    (w.write c bs).1.conns d = w.conns d := by
  simp [World.write, setConn_conns_other, h]

theorem Conn.write_none (c : Conn) (bs : List Nat) (h : c.budget = none) :
    c.write bs = ({ c with output := c.output ++ bs }, true) := by
  simp [Conn.write, h]

@[simp] theorem Conn.write_keeps_input (c : Conn) (bs : List Nat) : (c.write bs).1.input = c.input := by
  unfold Conn.write
  split
  · rfl
  · split <;> rfl

@[simp] theorem Conn.write_keeps_closed (c : Conn) (bs : List Nat) :
    (c.write bs).1.closed = c.closed := by
  unfold Conn.write
  split
  · rfl
  · split <;> rfl

/-! ## The registry as a map -/

theorem mapGet_cons (k' v : Nat) (m : List (Nat × Nat)) (k : Nat) :
    mapGet ((k', v) :: m) k = if k' = k then some v else mapGet m k := rfl

theorem mapDelete_cons (k' v : Nat) (m : List (Nat × Nat)) (k : Nat) :
    mapDelete ((k', v) :: m) k = if k' = k then mapDelete m k else (k', v) :: mapDelete m k := by
  by_cases h : k' = k <;> simp [mapDelete, h]

theorem mapGet_mapDelete_same (m : List (Nat × Nat)) (k : Nat) :
    mapGet (mapDelete m k) k = none := by
  induction m with
  | nil => rfl
  | cons e m ih =>
    obtain ⟨k', v⟩ := e
    by_cases h : k' = k
    · rw [mapDelete_cons, if_pos h, ih]
    · rw [mapDelete_cons, if_neg h, mapGet_cons, if_neg h, ih]

theorem mapGet_mapDelete_other (m : List (Nat × Nat)) {k j : Nat} (h : j ≠ k) :
    mapGet (mapDelete m k) j = mapGet m j := by
  induction m with
  | nil => rfl
  | cons e m ih =>
    obtain ⟨k', v⟩ := e
    by_cases hk : k' = k
    · have hj : ¬ k' = j := fun e => h (by rw [← e, hk])
      rw [mapDelete_cons, if_pos hk, mapGet_cons, if_neg hj, ih]
    · rw [mapDelete_cons, if_neg hk, mapGet_cons, mapGet_cons, ih]

theorem mapDelete_absent (m : List (Nat × Nat)) (k : Nat) (h : mapGet m k = none) :
    mapDelete m k = m := by
  induction m with
  | nil => rfl
  | cons e m ih =>
    obtain ⟨k', v⟩ := e
    by_cases hk : k' = k
    · rw [mapGet_cons, if_pos hk] at h
      cases h
    · rw [mapGet_cons, if_neg hk] at h
      rw [mapDelete_cons, if_neg hk, ih h]

theorem mapDelete_mapDelete (m : List (Nat × Nat)) (k : Nat) :
    mapDelete (mapDelete m k) k = mapDelete m k :=
  mapDelete_absent _ _ (mapGet_mapDelete_same m k)

theorem mapGet_append (m n : List (Nat × Nat)) (k : Nat) :
    mapGet (m ++ n) k = (mapGet m k).orElse (fun _ => mapGet n k) := by
  induction m with
  | nil => simp [mapGet]
  | cons e m ih =>
    obtain ⟨k', v⟩ := e
    by_cases hk : k' = k
    · simp [mapGet, hk]
    · simpa [mapGet, hk] using ih

theorem mapGet_mapSet_same (m : List (Nat × Nat)) (k v : Nat) : mapGet (mapSet m k v) k = some v := by
  simp [mapSet, mapGet_append, mapGet_mapDelete_same, mapGet]

theorem mapGet_mapSet_other (m : List (Nat × Nat)) {k j : Nat} (v : Nat) (h : j ≠ k) :
    mapGet (mapSet m k v) j = mapGet m j := by
  have hk : ¬ k = j := fun e => h e.symm
  simp [mapSet, mapGet_append, mapGet_mapDelete_other m h, mapGet, hk]

theorem mem_mapKeys_iff (m : List (Nat × Nat)) (k : Nat) :
    k ∈ mapKeys m ↔ (mapGet m k).isSome = true := by
  induction m with
  | nil => simp [mapKeys, mapGet]
  | cons e m ih =>
    obtain ⟨k', v⟩ := e
    by_cases hk : k' = k
    · simp [mapKeys, mapGet, hk]
    · have hk2 : ¬ k = k' := fun e => hk e.symm
      simp only [mapKeys] at ih
      simp [mapKeys, mapGet, hk, hk2, ih]

theorem mapGet_mem (m : List (Nat × Nat)) (k v : Nat) (h : mapGet m k = some v) : (k, v) ∈ m := by
  induction m with
  | nil => simp [mapGet] at h
  | cons e m ih =>
    obtain ⟨k', v'⟩ := e
    by_cases hk : k' = k
    · simp [mapGet, hk] at h
      simp [hk, h]
    · simp only [mapGet, hk, if_false] at h
      exact List.mem_cons_of_mem _ (ih h)

/-- In a registry whose connection handles are pairwise distinct, a handle
belongs to one identity. -/
theorem mapGet_inj (m : List (Nat × Nat)) (hv : (m.map Prod.snd).Nodup) {a b c : Nat}
    (ha : mapGet m a = some c) (hb : mapGet m b = some c) : a = b := by
  have h1 := mapGet_mem m a c ha
  have h2 := mapGet_mem m b c hb
  have := List.inj_on_of_nodup_map hv h1 h2 rfl
  exact congrArg Prod.fst this

/-! ## Deregistration -/

/-- C10. `unregisterClient` always returns; on a registry that does not
contain `id` it leaves the whole state unchanged, calling it twice gives the
same state as calling it once, and when `id` is present it removes exactly
that key: `id` is absent afterwards, every other key keeps its handle, and
`nextUserID` and the connections are untouched. -/
theorem unregisterClient_idempotent (w : World) (id : Nat) :
    (mapGet w.hub.clients id = none → unregisterClient w id = w) ∧
    unregisterClient (unregisterClient w id) id = unregisterClient w id ∧
    mapGet (unregisterClient w id).hub.clients id = none ∧
    (∀ k, k ≠ id → mapGet (unregisterClient w id).hub.clients k = mapGet w.hub.clients k) ∧
    (unregisterClient w id).hub.nextUserID = w.hub.nextUserID ∧
    (unregisterClient w id).conns = w.conns := by
  refine ⟨?_, ?_, mapGet_mapDelete_same _ _, fun k hk => mapGet_mapDelete_other _ hk, rfl, rfl⟩
  · intro h
    simp [unregisterClient, mapDelete_absent _ _ h]
  · simp [unregisterClient, mapDelete_mapDelete]

/-! ## Identity assignment -/

theorem runCalls_ids (w : World) (calls : List RegistryCall) (hn : w.hub.nextUserID < 2 ^ 64) :
    (runCalls w calls).1
      = (List.range (calls.countP isReg)).map (fun i => (w.hub.nextUserID + i) % 2 ^ 64) := by
  induction calls generalizing w with
  | nil => rfl
  | cons call calls ih =>
    cases call with
    | register conn =>
      have hlt : (registerClient w conn).2.hub.nextUserID < 2 ^ 64 := Nat.mod_lt _ (by norm_num)
      simp only [runCalls, List.countP_cons_of_pos _ _ (show isReg (RegistryCall.register conn) = true from rfl),
        List.range_succ_eq_map, List.map_cons, List.map_map, ih _ hlt]
      refine congrArg₂ _ ?_ ?_
      · simp only [registerClient, Nat.add_zero]
        exact (Nat.mod_eq_of_lt hn).symm
      · apply List.map_congr_left
        intro i _
        simp only [registerClient, Function.comp, Nat.succ_eq_add_one]
        rw [Nat.mod_add_mod]
        congr 1
        omega
    | unregister userID =>
      have hlt : (unregisterClient w userID).hub.nextUserID < 2 ^ 64 := hn
      simp only [runCalls, ih _ hlt]
      rw [List.countP_cons_of_neg]
      · rfl
      · simp [isReg]


theorem runCalls_ids_fresh (conns : Nat → Conn) (calls : List RegistryCall)
    (h : calls.countP isReg < 2 ^ 64) :
    (runCalls { hub := NewHub, conns := conns } calls).1 = List.range' 1 (calls.countP isReg) := by
  rw [runCalls_ids _ _ (by simp [NewHub]), List.range'_eq_map_range]
  apply List.map_congr_left
  intro i hi
  have hi2 := List.mem_range.mp hi
  simp only [NewHub]
  exact Nat.mod_eq_of_lt (by omega)

/-- C3, as amended. On a hub created by `NewHub`, for every sequence of
`registerClient` and `unregisterClient` calls with fewer than 2^64
`registerClient` calls, the identities returned are 1, 2, 3, ... in issuance
order: the first is 1, none is zero, each is strictly greater than every
earlier one, and they are pairwise distinct. -/
theorem registerClient_identities_increasing (conns : Nat → Conn) (calls : List RegistryCall)
    (h : calls.countP isReg < 2 ^ 64) :
    (runCalls { hub := NewHub, conns := conns } calls).1 = List.range' 1 (calls.countP isReg) ∧
    (∀ x, (runCalls { hub := NewHub, conns := conns } calls).1.head? = some x → x = 1) ∧
    (∀ x ∈ (runCalls { hub := NewHub, conns := conns } calls).1, x ≠ 0) ∧
    (runCalls { hub := NewHub, conns := conns } calls).1.Pairwise (fun a b => a < b) ∧
    (runCalls { hub := NewHub, conns := conns } calls).1.Nodup := by
  rw [runCalls_ids_fresh conns calls h]
  refine ⟨rfl, ?_, ?_, List.pairwise_lt_range' 1 _, List.nodup_range' 1 _⟩
  · intro x hx
    cases hc : calls.countP isReg with
    | zero => simp [hc] at hx
    | succ n =>
      rw [hc] at hx
      simp [List.range'_succ] at hx
      exact hx.symm
  · intro x hx
    have := (List.mem_range'_1.mp hx).1
    omega

/-- C3, witness: register, register, unregister 1, register on a fresh hub
returns 1, 2, 3. -/
theorem registerClient_identities_increasing_witness :
    (runCalls freshWorld [RegistryCall.register 10, RegistryCall.register 11,
        RegistryCall.unregister 1, RegistryCall.register 12]).1 = [1, 2, 3] ∧
    (runCalls freshWorld [RegistryCall.register 10, RegistryCall.register 11,
        RegistryCall.unregister 1, RegistryCall.register 12]).1.Pairwise (fun a b => a < b) :=
  ⟨(registerClient_identities_increasing (fun _ => idleConn)
      [RegistryCall.register 10, RegistryCall.register 11,
        RegistryCall.unregister 1, RegistryCall.register 12] (by decide)).1,
   (registerClient_identities_increasing (fun _ => idleConn)
      [RegistryCall.register 10, RegistryCall.register 11,
        RegistryCall.unregister 1, RegistryCall.register 12] (by decide)).2.2.2.1⟩

theorem runCalls_register_only (n m : Nat) (conn : Nat) (hn : n = m + 1) :
    (runCalls freshWorld (List.replicate n (RegistryCall.register conn))).1.length = n ∧
    (runCalls freshWorld (List.replicate n (RegistryCall.register conn))).1.head? = some 1 ∧
    (runCalls freshWorld (List.replicate n (RegistryCall.register conn))).1.getLast?
      = some ((1 + m) % 2 ^ 64) := by
  have hc : (List.replicate n (RegistryCall.register conn)).countP isReg = n := by
    rw [List.countP_replicate]
    simp [isReg]
  have h1 : freshWorld.hub.nextUserID = 1 := rfl
  rw [runCalls_ids freshWorld _ (by rw [h1]; norm_num), hc, h1]
  subst hn
  refine ⟨by simp, ?_, ?_⟩
  · rw [List.range_succ_eq_map]
    rfl
  · rw [List.range_succ, List.map_append, List.map_singleton, List.getLast?_append]
    rfl

/-- C3, counterexample. After 2^64 - 1 registrations on a fresh hub the
counter has wrapped around: the 2^64-th `registerClient` returns 0, an identity
that is zero and not greater than the earlier ones. -/
theorem registerClient_identity_wraps :
    (runCalls freshWorld (List.replicate (2 ^ 64) (RegistryCall.register 10))).1.length = 2 ^ 64 ∧
    (runCalls freshWorld (List.replicate (2 ^ 64) (RegistryCall.register 10))).1.head? = some 1 ∧
    (runCalls freshWorld (List.replicate (2 ^ 64) (RegistryCall.register 10))).1.getLast? = some 0 := by
  have h := runCalls_register_only (2 ^ 64) (2 ^ 64 - 1) 10 (by norm_num)
  have h0 : (1 + (2 ^ 64 - 1)) % 2 ^ 64 = 0 := by norm_num
  rw [h0] at h
  exact h

/-! ## Relay fan-out -/

theorem relayOne_hub (message : List Nat) (w : World) (r : Nat) :
    (relayOne message w r).hub = w.hub := by
  unfold relayOne
  split <;> rfl

theorem relayMessage_hub (w : World) (receivers message : List Nat) :
    (relayMessage w receivers message).hub = w.hub := by
  unfold relayMessage
  induction receivers generalizing w with
  | nil => rfl
  | cons r rs ih => rw [List.foldl_cons, ih, relayOne_hub]

theorem relayMessage_cons (w : World) (r : Nat) (rs message : List Nat) :
    relayMessage w (r :: rs) message = relayMessage (relayOne message w r) rs message := rfl

theorem relayOne_conns_other (message : List Nat) (w : World) (r c : Nat)
    (h : mapGet w.hub.clients r ≠ some c) : (relayOne message w r).conns c = w.conns c := by
  unfold relayOne
  split
  · rename_i conn hconn
    have hne : c ≠ conn := fun e => h (by rw [hconn, e])
    simp only [write_conns_other _ _ hne]
  · rfl

theorem relayOne_conns_same (message : List Nat) (w : World) (r c : Nat)
    (h : mapGet w.hub.clients r = some c) (hb : (w.conns c).budget = none) :
    (relayOne message w r).conns c
      = { w.conns c with
          output := (w.conns c).output ++ (RelayMessage :: (toBE 4 message.length ++ message)) } := by
  unfold relayOne
  rw [h]
  simp [Conn.write, hb, toBE, RelayMessage]

theorem relayOne_input (message : List Nat) (w : World) (r c : Nat) :
    ((relayOne message w r).conns c).input = (w.conns c).input := by
  unfold relayOne
  split
  · rename_i conn hconn
    by_cases hc : c = conn
    · subst hc
      simp
    · simp only [write_conns_other _ _ hc]
  · rfl

theorem relayMessage_input (w : World) (receivers message : List Nat) (c : Nat) :
    ((relayMessage w receivers message).conns c).input = (w.conns c).input := by
  induction receivers generalizing w with
  | nil => rfl
  | cons r rs ih => rw [relayMessage_cons, ih, relayOne_input]

theorem relayMessage_conns_unlisted (w : World) (receivers message : List Nat) (c : Nat)
    (h : ∀ r ∈ receivers, mapGet w.hub.clients r ≠ some c) :
    (relayMessage w receivers message).conns c = w.conns c := by
  induction receivers generalizing w with
  | nil => rfl
  | cons r rs ih =>
    rw [relayMessage_cons, ih, relayOne_conns_other _ _ _ _ (h r (List.mem_cons_self _ _))]
    intro r' hr'
    rw [relayOne_hub]
    exact h r' (List.mem_cons_of_mem _ hr')

/-- A connection whose transport accepts every write has received, after
`relayMessage`, one delivery frame for every occurrence in the receiver list of
an identity registered to it, and is otherwise unchanged. -/
theorem relayMessage_conns_count (w : World) (receivers message : List Nat) (c : Nat)
    (hb : (w.conns c).budget = none) :
    (relayMessage w receivers message).conns c
      = { w.conns c with
          output := (w.conns c).output ++
            (List.replicate (receivers.countP (fun r => decide (mapGet w.hub.clients r = some c)))
              (RelayMessage :: (toBE 4 message.length ++ message))).flatten } := by
  induction receivers generalizing w with
  | nil => simp [relayMessage]
  | cons r rs ih =>
    rw [relayMessage_cons]
    by_cases hr : mapGet w.hub.clients r = some c
    · have h1 := relayOne_conns_same message w r c hr hb
      have hb1 : ((relayOne message w r).conns c).budget = none := by rw [h1]; exact hb
      rw [ih _ hb1, relayOne_hub, h1, List.countP_cons_of_pos _ _ (by simpa using hr)]
      simp [List.replicate_succ]
    · have h1 := relayOne_conns_other message w r c hr
      have hb1 : ((relayOne message w r).conns c).budget = none := by rw [h1]; exact hb
      rw [ih _ hb1, relayOne_hub, h1, List.countP_cons_of_neg _ _ (by simpa using hr)]

theorem relayMessage_skips_absent (w : World) (receivers message : List Nat) :
    relayMessage w receivers message
      = relayMessage w (receivers.filter (fun r => (mapGet w.hub.clients r).isSome)) message := by
  induction receivers generalizing w with
  | nil => rfl
  | cons r rs ih =>
    cases hr : mapGet w.hub.clients r with
    | none =>
      have h1 : relayOne message w r = w := by simp [relayOne, hr]
      rw [relayMessage_cons, h1, ih, List.filter_cons_of_neg (by simp [hr])]
    | some conn =>
      rw [relayMessage_cons, ih, relayOne_hub, List.filter_cons_of_pos (by simp [hr]),
        relayMessage_cons]

/-- C1. For every state whose registry gives every connection at most one
identity, every receiver list without repetition and every payload,
`relayMessage` leaves the registry unchanged, appends exactly one delivery
frame (tag 2, length, payload) to the connection of every listed identity that
is registered (when its transport accepts the writes), behaves as if the
identities that are not registered were not listed, changes no connection
whose identity is not listed and reads from no connection. -/
theorem relayMessage_fanout (w : World) (receivers message : List Nat)
    (hnd : receivers.Nodup) (hinj : (w.hub.clients.map Prod.snd).Nodup) :
    (relayMessage w receivers message).hub = w.hub ∧
    (∀ r ∈ receivers, ∀ c, mapGet w.hub.clients r = some c → (w.conns c).budget = none →
      (relayMessage w receivers message).conns c
        = { w.conns c with
            output := (w.conns c).output ++ (RelayMessage :: (toBE 4 message.length ++ message)) }) ∧
    relayMessage w receivers message
      = relayMessage w (receivers.filter (fun r => (mapGet w.hub.clients r).isSome)) message ∧
    (∀ c, (∀ r ∈ receivers, mapGet w.hub.clients r ≠ some c) →
      (relayMessage w receivers message).conns c = w.conns c) ∧
    (∀ c, ((relayMessage w receivers message).conns c).input = (w.conns c).input) := by
  refine ⟨relayMessage_hub _ _ _, ?_, relayMessage_skips_absent _ _ _,
    fun c h => relayMessage_conns_unlisted _ _ _ c h, fun c => relayMessage_input _ _ _ c⟩
  intro r hr c hc hb
  rw [relayMessage_conns_count w receivers message c hb]
  have hcount : receivers.countP (fun r => decide (mapGet w.hub.clients r = some c)) = 1 := by
    rw [← List.count_eq_one_of_mem hnd hr, List.count]
    apply List.countP_congr
    intro x _
    simp only [decide_eq_true_eq, beq_iff_eq]
    constructor
    · intro hx
      exact mapGet_inj _ hinj hx hc
    · intro hx
      rw [hx]
      exact hc
  rw [hcount]
  simp


/-- C1, witness: three clients with identities 1, 2, 3 on connections 10, 11,
12; a relay to 2, 9999 and 3 appends one frame to connection 11. -/
theorem relayMessage_fanout_witness :
    [2, 9999, 3].Nodup ∧ (threeClients.hub.clients.map Prod.snd).Nodup ∧
    (relayMessage threeClients [2, 9999, 3] [72, 105]).hub = threeClients.hub ∧
    (relayMessage threeClients [2, 9999, 3] [72, 105]).conns 11
      = { threeClients.conns 11 with
          output := (threeClients.conns 11).output ++
            (RelayMessage :: (toBE 4 [72, 105].length ++ [72, 105])) } :=
  ⟨by decide, by decide,
    (relayMessage_fanout threeClients [2, 9999, 3] [72, 105] (by decide) (by decide)).1,
    (relayMessage_fanout threeClients [2, 9999, 3] [72, 105] (by decide) (by decide)).2.1
      2 (by decide) 11 (by decide) rfl⟩

/-! ## Listing the other clients -/

theorem writeUserIDs_cons (u : Nat) (us : List Nat) (w : World) (conn : Nat) :
    writeUserIDs (u :: us) w conn
      = if (w.write conn (toBE 8 u)).2 = true then writeUserIDs us (w.write conn (toBE 8 u)).1 conn
        else (w.write conn (toBE 8 u)).1 := by
  rw [writeUserIDs]
  cases h : (w.write conn (toBE 8 u)) with
  | mk w1 ok => cases ok <;> simp

theorem HandleListMessage_eq (w : World) (conn x : Nat) :
    HandleListMessage w conn x
      = if (w.write conn (toBE 2 (listUserIDs w.hub x).length)).2 = true then
          writeUserIDs (listUserIDs w.hub x) (w.write conn (toBE 2 (listUserIDs w.hub x).length)).1 conn
        else (w.write conn (toBE 2 (listUserIDs w.hub x).length)).1 := by
  simp only [HandleListMessage]
  cases h : (w.write conn (toBE 2 (listUserIDs w.hub x).length)) with
  | mk w1 ok => cases ok <;> simp

theorem writeUserIDs_hub (ids : List Nat) (w : World) (conn : Nat) :
    (writeUserIDs ids w conn).hub = w.hub := by
  induction ids generalizing w with
  | nil => rfl
  | cons u us ih =>
    rw [writeUserIDs_cons]
    split
    · rw [ih, write_hub]
    · rw [write_hub]

theorem writeUserIDs_conns_other (ids : List Nat) (w : World) {conn d : Nat} (h : d ≠ conn) :
    (writeUserIDs ids w conn).conns d = w.conns d := by
  induction ids generalizing w with
  | nil => rfl
  | cons u us ih =>
    rw [writeUserIDs_cons]
    split
    · rw [ih, write_conns_other _ _ h]
    · rw [write_conns_other _ _ h]

theorem writeUserIDs_conns_same (ids : List Nat) (w : World) (conn : Nat)
    (hb : (w.conns conn).budget = none) :
    (writeUserIDs ids w conn).conns conn
      = { w.conns conn with
          output := (w.conns conn).output ++ (ids.map (toBE 8)).flatten } := by
  induction ids generalizing w with
  | nil => simp [writeUserIDs]
  | cons u us ih =>
    have hw : w.write conn (toBE 8 u)
        = (w.setConn conn { w.conns conn with output := (w.conns conn).output ++ toBE 8 u }, true) := by
      simp [World.write, Conn.write_none _ _ hb]
    rw [writeUserIDs_cons, hw]
    simp only [if_true]
    rw [ih _ (by simpa using hb)]
    simp

theorem HandleListMessage_hub (w : World) (conn x : Nat) :
    (HandleListMessage w conn x).hub = w.hub := by
  rw [HandleListMessage_eq]
  split
  · rw [writeUserIDs_hub, write_hub]
  · rw [write_hub]

theorem HandleListMessage_conns_other (w : World) {conn d : Nat} (x : Nat) (h : d ≠ conn) :
    (HandleListMessage w conn x).conns d = w.conns d := by
  rw [HandleListMessage_eq]
  split
  · rw [writeUserIDs_conns_other _ _ h, write_conns_other _ _ h]
  · rw [write_conns_other _ _ h]

theorem HandleListMessage_conns_same (w : World) (conn x : Nat)
    (hb : (w.conns conn).budget = none) :
    (HandleListMessage w conn x).conns conn
      = { w.conns conn with
          output := (w.conns conn).output ++ toBE 2 (listUserIDs w.hub x).length
            ++ ((listUserIDs w.hub x).map (toBE 8)).flatten } := by
  have hw : w.write conn (toBE 2 (listUserIDs w.hub x).length)
      = (w.setConn conn { w.conns conn with
          output := (w.conns conn).output ++ toBE 2 (listUserIDs w.hub x).length }, true) := by
    simp [World.write, Conn.write_none _ _ hb]
  rw [HandleListMessage_eq, hw]
  simp only [if_true]
  rw [writeUserIDs_conns_same _ _ _ (by simpa using hb)]
  simp

theorem mem_listUserIDs (h : Hub) (x k : Nat) :
    k ∈ listUserIDs h x ↔ (mapGet h.clients k).isSome = true ∧ k ≠ x := by
  simp [listUserIDs, mem_mapKeys_iff]

/-- C2. For every registry (a map: no key twice) and every excluded identity
`x`, `HandleListMessage` writes to the connection (when its transport accepts
the writes) the count followed by the identities `listUserIDs` collected, and
those are, without repetition, exactly the keys of the registry other than
`x`; `x` is not among them and the registry is not modified. -/
theorem HandleListMessage_lists_others (w : World) (conn x : Nat)
    (hk : (mapKeys w.hub.clients).Nodup) (hb : (w.conns conn).budget = none) :
    (HandleListMessage w conn x).conns conn
      = { w.conns conn with
          output := (w.conns conn).output ++ toBE 2 (listUserIDs w.hub x).length
            ++ ((listUserIDs w.hub x).map (toBE 8)).flatten } ∧
    (listUserIDs w.hub x).Nodup ∧
    (∀ k, k ∈ listUserIDs w.hub x ↔ (mapGet w.hub.clients k).isSome = true ∧ k ≠ x) ∧
    x ∉ listUserIDs w.hub x ∧
    (HandleListMessage w conn x).hub = w.hub := by
  refine ⟨HandleListMessage_conns_same w conn x hb, hk.filter _, mem_listUserIDs _ _, ?_,
    HandleListMessage_hub _ _ _⟩
  intro hx
  exact ((mem_listUserIDs _ _ _).mp hx).2 rfl

/-- C2, witness: with the identities 1, 2, 3 registered, the list sent to the
client with identity 1 is the count 2 followed by 2 and 3. -/
theorem HandleListMessage_lists_others_witness :
    ((HandleListMessage threeClients 10 1).conns 10).output
      = [0, 2, 0, 0, 0, 0, 0, 0, 0, 2, 0, 0, 0, 0, 0, 0, 0, 3] ∧
    (HandleListMessage threeClients 10 1).hub = threeClients.hub :=
  ⟨(congrArg Conn.output
      (HandleListMessage_lists_others threeClients 10 1 (by decide) rfl).1).trans (by decide),
    (HandleListMessage_lists_others threeClients 10 1 (by decide) rfl).2.2.2.2⟩

/-! ## Relay request: encoding and decoding -/

theorem setInput_setInput (w : World) (c : Nat) (a b : List Nat) :
    (w.setInput c a).setInput c b = w.setInput c b := by
  apply World.ext_conns
  · rfl
  · intro d
    by_cases h : d = c
    · subst h
      simp [World.setInput]
    · simp [World.setInput, setConn_conns_other _ _ h]

@[simp] theorem setInput_input (w : World) (c : Nat) (a : List Nat) :
    ((w.setInput c a).conns c).input = a := by
  simp [World.setInput]

@[simp] theorem setInput_hub (w : World) (c : Nat) (a : List Nat) : (w.setInput c a).hub = w.hub := rfl

theorem setInput_output (w : World) (c d : Nat) (a : List Nat) :
    ((w.setInput c a).conns d).output = (w.conns d).output := by
  by_cases h : d = c
  · subst h
    simp [World.setInput]
  · simp [World.setInput, setConn_conns_other _ _ h]

theorem setInput_conns_other (w : World) {c d : Nat} (a : List Nat) (h : d ≠ c) :
    (w.setInput c a).conns d = w.conns d := by
  simp [World.setInput, setConn_conns_other _ _ h]

theorem readReceivers_writeReceivers (receivers rest : List Nat)
    (hid : ∀ r ∈ receivers, r < 2 ^ 64) :
    readReceivers receivers.length (writeReceivers receivers ++ rest) = (receivers, rest) := by
  induction receivers with
  | nil => rfl
  | cons r rs ih =>
    have hr : r % 256 ^ 8 = r := Nat.mod_eq_of_lt (by have := hid r (List.mem_cons_self _ _); norm_num at this ⊢; exact this)
    have ih2 := ih (fun x hx => hid x (List.mem_cons_of_mem _ hx))
    simp only [List.length_cons, readReceivers, writeReceivers, List.append_assoc,
      binaryRead_toBE, hr, ih2, Option.getD_some]

/-- A relay request that was received completely: the reads of
`HandleRelayMessage` recover the receivers and the payload when the declared
length is within the bound, and stop after the length field otherwise. -/
theorem readRelayRequest_complete (receivers message rest : List Nat)
    (hr : receivers.length < 256) (hid : ∀ r ∈ receivers, r < 2 ^ 64)
    (hm : message.length < 2 ^ 32) :
    readRelayRequest (toBE 1 receivers.length ++ writeReceivers receivers
        ++ toBE 4 message.length ++ message ++ rest)
      = if message.length ≤ MaxMessageLength then (some (receivers, message), rest)
        else (none, message ++ rest) := by
  have h1 : receivers.length % 256 ^ 1 = receivers.length := Nat.mod_eq_of_lt (by simpa using hr)
  have h4 : message.length % 256 ^ 4 = message.length :=
    Nat.mod_eq_of_lt (by norm_num at hm ⊢; exact hm)
  simp only [readRelayRequest, List.append_assoc, binaryRead_toBE, h1, Option.getD_some,
    readReceivers_writeReceivers _ _ hid, h4, readFull_append]
  by_cases hle : message.length ≤ MaxMessageLength
  · simp [hle, Nat.not_lt.mpr hle]
  · simp [hle, Nat.lt_of_not_le hle]

theorem toBE_four (v : Nat) :
    toBE 4 v = [v / 16777216 % 256, v / 65536 % 256, v / 256 % 256, v % 256] := by
  simp [toBE, Nat.div_div_eq_div_mul]

theorem toBE_eight (v : Nat) :
    toBE 8 v = [v / 72057594037927936 % 256, v / 281474976710656 % 256, v / 1099511627776 % 256,
      v / 4294967296 % 256, v / 16777216 % 256, v / 65536 % 256, v / 256 % 256, v % 256] := by
  simp [toBE, Nat.div_div_eq_div_mul]

theorem HandleRelayMessage_some (w : World) (conn : Nat) (receivers message rest : List Nat)
    (h : readRelayRequest (w.conns conn).input = (some (receivers, message), rest)) :
    HandleRelayMessage w conn = relayMessage (w.setInput conn rest) receivers message := by
  simp [HandleRelayMessage, h]

theorem HandleRelayMessage_none (w : World) (conn : Nat) (rest : List Nat)
    (h : readRelayRequest (w.conns conn).input = (none, rest)) :
    HandleRelayMessage w conn = w.setInput conn rest := by
  simp [HandleRelayMessage, h]

theorem readMessageType_cons (t : Nat) (rest : List Nat) :
    readMessageType (t :: rest) = (some (t % 256), rest) := by
  simp [readMessageType, binaryRead, readFull, fromBE]

theorem dispatchLoop_tag (fuel : Nat) (w : World) (conn userID t : Nat) (rest : List Nat)
    (h : (w.conns conn).input = t :: rest) :
    dispatchLoop (fuel + 1) w conn userID
      = dispatchLoop fuel (dispatch (w.setInput conn rest) conn userID (t % 256)) conn userID := by
  simp [dispatchLoop, h, readMessageType_cons]

theorem dispatchLoop_eof (fuel : Nat) (w : World) (conn userID : Nat)
    (h : (w.conns conn).input = []) :
    dispatchLoop (fuel + 1) w conn userID = some (w.setInput conn []) := by
  simp [dispatchLoop, h, readMessageType, binaryRead, readFull]

theorem dispatch_relay (w : World) (conn userID : Nat) :
    dispatch w conn userID RelayMessage = HandleRelayMessage w conn := by
  simp [dispatch, RelayMessage, IdentityMessage, ListMessage]

/-- C4. For every receiver list of at most 255 identities (each a `uint64`)
and every payload of at most 1,048,576 bytes, `SendRelayMessage` returns no
error and writes tag 2, the count on one byte, the identities on 8 big-endian
bytes each, the length on 4 big-endian bytes and the payload; when these bytes
are the unread input of a connection, followed by any `rest`, one iteration of
the dispatch loop reads the tag and `HandleRelayMessage` hands exactly the
original receivers and payload to `relayMessage`, leaving exactly `rest`
unread. -/
theorem relay_request_roundtrip (receivers message rest : List Nat)
    (hr : receivers.length ≤ 255) (hm : message.length ≤ 1048576)
    (hid : ∀ r ∈ receivers, r < 2 ^ 64) :
    SendRelayMessage receivers message
      = (2 :: (toBE 1 receivers.length ++ writeReceivers receivers
          ++ toBE 4 message.length ++ message), false) ∧
    readMessageType ((SendRelayMessage receivers message).1 ++ rest)
      = (some RelayMessage, toBE 1 receivers.length ++ writeReceivers receivers
          ++ toBE 4 message.length ++ message ++ rest) ∧
    readRelayRequest (toBE 1 receivers.length ++ writeReceivers receivers
          ++ toBE 4 message.length ++ message ++ rest) = (some (receivers, message), rest) ∧
    (∀ (w : World) (conn userID fuel : Nat),
      (w.conns conn).input = (SendRelayMessage receivers message).1 ++ rest →
      dispatchLoop (fuel + 1) w conn userID
        = dispatchLoop fuel (relayMessage (w.setInput conn rest) receivers message) conn userID) := by
  have hsend : SendRelayMessage receivers message
      = (2 :: (toBE 1 receivers.length ++ writeReceivers receivers
          ++ toBE 4 message.length ++ message), false) := by
    have h1 : ¬ receivers.length > MaxReceivers := by simp [MaxReceivers]; exact hr
    have h2 : ¬ message.length > MaxMessageLength := by simp [MaxMessageLength]; exact hm
    simp [SendRelayMessage, h1, h2, toBE, RelayMessage]
  have hdec := readRelayRequest_complete receivers message rest (by omega) hid
    (by norm_num; omega)
  rw [if_pos (by simp [MaxMessageLength]; exact hm)] at hdec
  refine ⟨hsend, ?_, hdec, ?_⟩
  · rw [hsend]
    simp [readMessageType_cons, RelayMessage]
  · intro w conn userID fuel hin
    rw [hsend] at hin
    rw [dispatchLoop_tag fuel w conn userID 2 _ hin]
    have h2 : (2 : Nat) % 256 = RelayMessage := rfl
    rw [h2, dispatch_relay, HandleRelayMessage_some _ _ receivers message rest, setInput_setInput]
    rw [setInput_input]
    simpa using hdec

/-- C4, witness: a relay of the payload 72, 105 to the identities 2 and 3. -/
theorem relay_request_roundtrip_witness :
    SendRelayMessage [2, 3] [72, 105]
      = ([2, 2, 0, 0, 0, 0, 0, 0, 0, 2, 0, 0, 0, 0, 0, 0, 0, 3, 0, 0, 0, 2, 72, 105], false) ∧
    readRelayRequest (toBE 1 [2, 3].length ++ writeReceivers [2, 3]
          ++ toBE 4 [72, 105].length ++ [72, 105] ++ [1]) = (some ([2, 3], [72, 105]), [1]) :=
  ⟨(relay_request_roundtrip [2, 3] [72, 105] [] (by decide) (by decide) (by decide)).1,
   (relay_request_roundtrip [2, 3] [72, 105] [1] (by decide) (by decide) (by decide)).2.2.1⟩

/-! ## Relay delivery frame -/

theorem binaryRead_tag_relay (bs : List Nat) :
    binaryRead 1 (2 :: bs) = (some RelayMessage, bs) := by
  simp [binaryRead, readFull, fromBE, RelayMessage]

/-- The frame `relayMessage` writes to a registered receiver whose transport
accepts the writes is the byte 2, the payload length on 4 big-endian bytes and
the payload; for a payload of at most 1,048,576 bytes `Client.ReceiveMessages`
(which reads the payload with `io.ReadFull`) decodes it to the tag
`RelayMessage` and the original payload, consuming exactly the frame. -/
theorem delivery_frame_decoded (w : World) (r c : Nat) (message rest : List Nat)
    (hreg : mapGet w.hub.clients r = some c) (hb : (w.conns c).budget = none)
    (hm : message.length ≤ 1048576) :
    ((relayMessage w [r] message).conns c).output
      = (w.conns c).output ++ (2 :: (toBE 4 message.length ++ message)) ∧
    toBE 4 message.length
      = [message.length / 16777216 % 256, message.length / 65536 % 256,
          message.length / 256 % 256, message.length % 256] ∧
    receiveMessage (2 :: (toBE 4 message.length ++ message) ++ rest)
      = (Received.delivery RelayMessage message, rest) := by
  have h4 : message.length % 256 ^ 4 = message.length := Nat.mod_eq_of_lt (by norm_num; omega)
  refine ⟨?_, toBE_four _, ?_⟩
  · have h := relayOne_conns_same message w r c hreg hb
    have h2 : relayMessage w [r] message = relayOne message w r := rfl
    rw [h2, h]
    rfl
  · rw [receiveMessage, List.cons_append, binaryRead_tag_relay, List.append_assoc]
    simp only [if_true, binaryRead_toBE, h4, Option.getD_some, readFull_append]

/-- What the test helper does with a delivery frame: it reads the tag and the
length, and compares the expected payload with the buffer its single
`conn.Read` leaves. -/
theorem checkReceivedMessage_frame (arrived : Nat) (message rest expected : List Nat)
    (hm : message.length < 2 ^ 32) :
    checkReceivedMessage arrived (2 :: (toBE 4 message.length ++ message) ++ rest) expected
      = match connRead message.length arrived (message ++ rest) with
        | (none, _) => false
        | (some receivedMessage, _) => decide (receivedMessage = expected) := by
  have h4 : message.length % 256 ^ 4 = message.length :=
    Nat.mod_eq_of_lt (by norm_num at hm ⊢; exact hm)
  rw [checkReceivedMessage, List.cons_append, binaryRead_tag_relay, List.append_assoc]
  simp only [binaryRead_toBE, h4, ne_eq, not_true_eq_false, if_false]

/-- The test helper accepts the frame when its single `conn.Read` is handed the
whole payload. -/
theorem checkReceivedMessage_full_read (arrived : Nat) (message rest : List Nat)
    (hm : message.length < 2 ^ 32) (hall : message.length ≤ max arrived 1) :
    checkReceivedMessage arrived (2 :: (toBE 4 message.length ++ message) ++ rest) message
      = true := by
  rw [checkReceivedMessage_frame arrived message rest message hm]
  cases message with
  | nil => simp [connRead]
  | cons b bs =>
    have h1 : min (b :: bs).length (max arrived 1) = (b :: bs).length := Nat.min_eq_left hall
    have h2 : min (b :: bs).length (min (max arrived 1) ((b :: bs) ++ rest).length)
        = (b :: bs).length := by
      rw [List.length_append]
      omega
    have hne : (b :: bs).length ≠ 0 := by simp
    have hne2 : ¬ (b :: bs) ++ rest = [] := by simp
    rw [connRead, if_neg hne, if_neg hne2, h1, h2]
    simp

/-- The test helper rejects the frame of a payload of `m = n + 1` bytes that
are all 1 when its single `conn.Read` is handed only the first `n` of them:
the last byte of its buffer stays zero. -/
theorem checkReceivedMessage_short_read (m n : Nat) (hmn : m = n + 1) (hn : 1 ≤ n)
    (hm : m < 2 ^ 32) :
    checkReceivedMessage n
        (2 :: (toBE 4 (List.replicate m 1).length ++ List.replicate m 1) ++ [])
        (List.replicate m 1) = false := by
  subst hmn
  rw [checkReceivedMessage_frame n _ [] _ (by rw [List.length_replicate]; exact hm)]
  have hlen : (List.replicate (n + 1) 1 ++ ([] : List Nat)).length = n + 1 := by
    rw [List.append_nil, List.length_replicate]
  have h1 : min (n + 1) (max n 1) = n := by omega
  have h2 : min (n + 1) (min (max n 1) (n + 1)) = n := by omega
  have hne2 : ¬ List.replicate (n + 1) 1 ++ ([] : List Nat) = [] := by
    rw [List.append_nil, List.replicate_succ]
    exact List.cons_ne_nil _ _
  rw [List.length_replicate, connRead, if_neg (Nat.succ_ne_zero n), if_neg hne2, hlen, h1, h2]
  have htake : (List.replicate (n + 1) 1 ++ ([] : List Nat)).take n = List.replicate n 1 := by
    rw [List.append_nil, List.take_replicate, Nat.min_eq_left (Nat.le_succ n)]
  have hsub : n + 1 - n = 1 := by omega
  rw [htake, hsub]
  simp only [decide_eq_false_iff_not]
  rw [List.replicate_succ' n 1]
  intro h
  have := List.append_cancel_left h
  simp at this

/-- C5, the code at the failing input.  The identities 1, 2, 3 are registered
and a payload of 128001 bytes (all 1) is relayed to the identity 2.  The hub
writes the frame 2, the length 0, 1, 244, 1 and the payload to connection 11,
and `Client.ReceiveMessages` (which reads the payload with `io.ReadFull`)
decodes it to the tag `RelayMessage` and the original payload.  The test
helper `checkReceivedMessage` reads the payload with a single `conn.Read`: it
accepts the frame when that call is handed all 128001 bytes, and rejects it
when the call is handed the 128000 bytes that have arrived, because the last
byte of its buffer stays zero. -/
theorem checkReceivedMessage_fails_on_short_read :
    ((relayMessage threeClients [2] (List.replicate 128001 1)).conns 11).output
      = 2 :: (toBE 4 128001 ++ List.replicate 128001 1) ∧
    toBE 4 128001 = [0, 1, 244, 1] ∧
    receiveMessage (2 :: (toBE 4 128001 ++ List.replicate 128001 1))
      = (Received.delivery RelayMessage (List.replicate 128001 1), []) ∧
    checkReceivedMessage 128001 (2 :: (toBE 4 128001 ++ List.replicate 128001 1))
      (List.replicate 128001 1) = true ∧
    checkReceivedMessage 128000 (2 :: (toBE 4 128001 ++ List.replicate 128001 1))
      (List.replicate 128001 1) = false := by
  have hlen : (List.replicate 128001 1).length = 128001 := List.length_replicate _ _
  have hdec := delivery_frame_decoded threeClients 2 11 (List.replicate 128001 1) []
    (by decide) rfl (by rw [hlen]; norm_num)
  have hout : (threeClients.conns 11).output = [] := rfl
  have hfull := checkReceivedMessage_full_read 128001 (List.replicate 128001 1) []
    (by rw [hlen]; norm_num) (by rw [hlen]; norm_num)
  have hshort := checkReceivedMessage_short_read 128001 128000 (by norm_num) (by norm_num)
    (by norm_num)
  rw [hlen, List.append_nil] at hfull hshort
  rw [hlen, hout, List.nil_append, List.append_nil] at hdec
  exact ⟨hdec.1, by decide, hdec.2.2, hfull, hshort⟩

/-! ## The length bound of `HandleRelayMessage` -/

/-- C7. For every relay request received completely (count, that many
identities, a declared length and that many payload bytes, followed by any
`rest`), `HandleRelayMessage` hands the receivers and the payload to
`relayMessage` if and only if the declared length is at most 1,048,576; when
it is, the state is that of `relayMessage` on them, and when it is larger the
registry and the output of every connection are unchanged. -/
theorem HandleRelayMessage_length_bound (w : World) (conn : Nat)
    (receivers message rest : List Nat)
    (hr : receivers.length < 256) (hid : ∀ r ∈ receivers, r < 2 ^ 64)
    (hm : message.length < 2 ^ 32)
    (hin : (w.conns conn).input = toBE 1 receivers.length ++ writeReceivers receivers
        ++ toBE 4 message.length ++ message ++ rest) :
    ((readRelayRequest (w.conns conn).input).1 = some (receivers, message)
      ↔ message.length ≤ 1048576) ∧
    ((readRelayRequest (w.conns conn).input).1 = none ↔ 1048576 < message.length) ∧
    (message.length ≤ 1048576 →
      HandleRelayMessage w conn = relayMessage (w.setInput conn rest) receivers message) ∧
    (1048576 < message.length →
      (HandleRelayMessage w conn).hub = w.hub ∧
      ∀ c, ((HandleRelayMessage w conn).conns c).output = (w.conns c).output) := by
  have hdec := readRelayRequest_complete receivers message rest hr hid hm
  rw [← hin] at hdec
  have hM : MaxMessageLength = 1048576 := rfl
  rw [hM] at hdec
  by_cases hle : message.length ≤ 1048576
  · rw [if_pos hle] at hdec
    refine ⟨by simp [hdec, hle], by simp [hdec, hle], fun _ => ?_, fun h => absurd h (by omega)⟩
    exact HandleRelayMessage_some _ _ _ _ _ hdec
  · rw [if_neg hle] at hdec
    refine ⟨by simp [hdec, hle], by simp [hdec]; omega, fun h => absurd h hle, fun _ => ?_⟩
    rw [HandleRelayMessage_none _ _ _ hdec]
    exact ⟨rfl, fun c => setInput_output _ _ _ _⟩

/-- C7, witness: a complete request for the identities 2 and 3 with the
payload 72, 105 on connection 10 is handed to `relayMessage`. -/
theorem HandleRelayMessage_length_bound_witness :
    HandleRelayMessage
        (threeClients.setInput 10 (toBE 1 [2, 3].length ++ writeReceivers [2, 3]
          ++ toBE 4 [72, 105].length ++ [72, 105] ++ [1])) 10
      = relayMessage ((threeClients.setInput 10 (toBE 1 [2, 3].length ++ writeReceivers [2, 3]
          ++ toBE 4 [72, 105].length ++ [72, 105] ++ [1])).setInput 10 [1]) [2, 3] [72, 105] :=
  (HandleRelayMessage_length_bound
    (threeClients.setInput 10 (toBE 1 [2, 3].length ++ writeReceivers [2, 3]
          ++ toBE 4 [72, 105].length ++ [72, 105] ++ [1])) 10 [2, 3] [72, 105] [1]
    (by decide) (by decide) (by decide) (by simp)).2.2.1 (by decide)

/-! ## Truncated relay requests -/

/-- C9, the code at the failing input.  Connection 10 sent a relay request
with count 1 and the identity 2, and the stream ended before the length field.
All three `binary.Read` errors are dropped, the length stays 0, `io.ReadFull`
of zero bytes succeeds, and the client with identity 2 (connection 11)
receives a delivery frame with an empty payload. -/
theorem HandleRelayMessage_truncated_delivers :
    readRelayRequest [1, 0, 0, 0, 0, 0, 0, 0, 2] = (some ([2], []), []) ∧
    ((HandleRelayMessage (threeClients.setInput 10 [1, 0, 0, 0, 0, 0, 0, 0, 2]) 10).conns 11).output
      = [2, 0, 0, 0, 0] ∧
    readRelayRequest [2, 0, 0, 0, 0, 0, 0, 0, 2, 0, 0, 0] = (some ([2, 0], []), []) ∧
    ((HandleRelayMessage (threeClients.setInput 10 [2, 0, 0, 0, 0, 0, 0, 0, 2, 0, 0, 0]) 10).conns 11).output
      = [2, 0, 0, 0, 0] := by
  decide

/-! ## The dispatch loop -/

theorem setConn_setConn (w : World) (c : Nat) (a b : Conn) :
    (w.setConn c a).setConn c b = w.setConn c b := by
  apply World.ext_conns
  · rfl
  · intro d
    by_cases h : d = c
    · subst h
      simp
    · simp [setConn_conns_other _ _ h]

theorem dispatch_identity (w : World) (conn userID : Nat) :
    dispatch w conn userID 0 = HandleIdentityMessage w conn userID := by
  simp [dispatch, IdentityMessage]

theorem HandleIdentityMessage_setInput (w : World) (conn userID : Nat) (rest : List Nat)
    (hb : (w.conns conn).budget = none) :
    HandleIdentityMessage (w.setInput conn rest) conn userID
      = w.setConn conn { w.conns conn with
          input := rest, output := (w.conns conn).output ++ toBE 8 userID } := by
  simp [HandleIdentityMessage, World.write, World.setInput, setConn_setConn, Conn.write, hb]

/-- A run of `n` identity requests: each is answered with the 8 bytes of the
identity. -/
theorem dispatchLoop_identity_run (n fuel : Nat) (w : World) (conn userID : Nat)
    (rest : List Nat) (hb : (w.conns conn).budget = none)
    (hin : (w.conns conn).input = List.replicate n 0 ++ rest) :
    dispatchLoop (n + fuel) w conn userID
      = dispatchLoop fuel
          (w.setConn conn { w.conns conn with
            input := rest,
            output := (w.conns conn).output ++ (List.replicate n (toBE 8 userID)).flatten })
          conn userID := by
  induction n generalizing w with
  | zero =>
    have hw : w.setConn conn { w.conns conn with
        input := rest, output := (w.conns conn).output ++ (List.replicate 0 (toBE 8 userID)).flatten } = w := by
      apply World.ext_conns
      · rfl
      · intro d
        by_cases h : d = conn
        · subst h
          rw [setConn_conns_same]
          rw [List.replicate_zero, List.nil_append] at hin
          rw [← hin]
          simp
        · rw [setConn_conns_other _ _ h]
    rw [hw, Nat.zero_add]
  | succ n ih =>
    rw [List.replicate_succ, List.cons_append] at hin
    rw [show n + 1 + fuel = (n + fuel) + 1 from by omega, dispatchLoop_tag _ w conn userID 0 _ hin]
    rw [show (0 : Nat) % 256 = 0 from rfl, dispatch_identity, HandleIdentityMessage_setInput _ _ _ _ hb]
    rw [ih _ (by simpa using hb) (by simp)]
    congr 1
    rw [setConn_setConn]
    congr 1
    simp [List.replicate_succ]

theorem registerClient_conns (w : World) (conn : Nat) : (registerClient w conn).2.conns = w.conns := rfl

theorem registerClient_fst (w : World) (conn : Nat) : (registerClient w conn).1 = w.hub.nextUserID := rfl

theorem handleConnection_eq (w : World) (conn : Nat) :
    handleConnection w conn
      = (dispatchLoop ((w.conns conn).input.length + 1) (registerClient w conn).2 conn
          w.hub.nextUserID).map (fun w2 => (unregisterClient w2 w.hub.nextUserID).close conn) := by
  simp only [handleConnection, registerClient_fst]
  cases dispatchLoop ((w.conns conn).input.length + 1) (registerClient w conn).2 conn
    w.hub.nextUserID <;> rfl

theorem close_output (w : World) (c d : Nat) : ((w.close c).conns d).output = (w.conns d).output := by
  by_cases h : d = c
  · subst h
    simp [World.close]
  · simp [World.close, setConn_conns_other _ _ h]

/-- A connection whose client sends `n` identity requests and then closes: the
hub wrote the 8 bytes of the identity `n` times and nothing else. -/
theorem handleConnection_identity_run (n : Nat) (w : World) (conn : Nat)
    (hb : (w.conns conn).budget = none) (hin : (w.conns conn).input = List.replicate n 0) :
    ∃ w2, handleConnection w conn = some w2 ∧
      (w2.conns conn).output
        = (w.conns conn).output ++ (List.replicate n (toBE 8 w.hub.nextUserID)).flatten := by
  rw [handleConnection_eq, hin, List.length_replicate]
  have hin2 : ((registerClient w conn).2.conns conn).input = List.replicate n 0 ++ [] := by
    rw [registerClient_conns, hin, List.append_nil]
  rw [dispatchLoop_identity_run n 1 _ conn _ [] (by rw [registerClient_conns]; exact hb) hin2]
  rw [dispatchLoop_eof 0 _ _ _ (by simp)]
  refine ⟨_, rfl, ?_⟩
  rw [close_output]
  simp [unregisterClient, World.setInput, registerClient_conns]

theorem write_input (w : World) (c d : Nat) (bs : List Nat) :
    ((w.write c bs).1.conns d).input = (w.conns d).input := by
  by_cases h : d = c
  · subst h
    simp
  · rw [write_conns_other _ _ h]

theorem writeUserIDs_input (ids : List Nat) (w : World) (conn d : Nat) :
    ((writeUserIDs ids w conn).conns d).input = (w.conns d).input := by
  induction ids generalizing w with
  | nil => rfl
  | cons u us ih =>
    rw [writeUserIDs_cons]
    split
    · rw [ih, write_input]
    · rw [write_input]

theorem HandleListMessage_input (w : World) (conn x d : Nat) :
    ((HandleListMessage w conn x).conns d).input = (w.conns d).input := by
  rw [HandleListMessage_eq]
  split
  · rw [writeUserIDs_input, write_input]
  · rw [write_input]

theorem dispatch_list (w : World) (conn userID : Nat) :
    dispatch w conn userID 1 = HandleListMessage w conn userID := by
  simp [dispatch, IdentityMessage, ListMessage]

/-- C8, as amended. `handleConnection` sends no unsolicited identity frame:
registering writes nothing, and a connection whose client sends nothing gets
nothing.  The identity is sent in answer to a client frame with tag 0, as 8
big-endian bytes without a tag byte, and once for every such frame: after `n`
such frames the connection holds `n` copies. -/
theorem identity_sent_on_request (w : World) (conn : Nat)
    (hb : (w.conns conn).budget = none) :
    (registerClient w conn).2.conns = w.conns ∧
    (∀ (fuel userID : Nat) (rest : List Nat), (w.conns conn).input = 0 :: rest →
      dispatchLoop (fuel + 1) w conn userID
        = dispatchLoop fuel
            (w.setConn conn { w.conns conn with
              input := rest, output := (w.conns conn).output ++ toBE 8 userID })
            conn userID) ∧
    (∀ n, (w.conns conn).input = List.replicate n 0 →
      ∃ w2, handleConnection w conn = some w2 ∧
        (w2.conns conn).output
          = (w.conns conn).output ++ (List.replicate n (toBE 8 w.hub.nextUserID)).flatten) := by
  refine ⟨rfl, ?_, fun n hin => handleConnection_identity_run n w conn hb hin⟩
  intro fuel userID rest hin
  rw [dispatchLoop_tag _ w conn userID 0 _ hin, show (0 : Nat) % 256 = 0 from rfl,
    dispatch_identity, HandleIdentityMessage_setInput _ _ _ _ hb]

/-- C8, witness: a client that sends two identity requests gets the 8 bytes of
its identity twice. -/
theorem identity_sent_on_request_witness :
    ∃ w2, handleConnection (freshWorld.setInput 10 [0, 0]) 10 = some w2 ∧
      (w2.conns 10).output
        = ((freshWorld.setInput 10 [0, 0]).conns 10).output
          ++ (List.replicate 2 (toBE 8 (freshWorld.setInput 10 [0, 0]).hub.nextUserID)).flatten :=
  (identity_sent_on_request (freshWorld.setInput 10 [0, 0]) 10 rfl).2.2 2 rfl

/-- C8, counterexample. On a fresh hub, a connection whose client sends
nothing is registered and closed without a single byte written to it (no
unsolicited identity frame), and a connection whose client sends two frames
with tag 0 gets its identity 1 twice, each time as 8 bytes without a tag. -/
theorem handleConnection_no_unsolicited_identity :
    (handleConnection freshWorld 10).map (fun w => (w.conns 10).output) = some [] ∧
    (handleConnection (freshWorld.setInput 10 [0, 0]) 10).map (fun w => (w.conns 10).output)
      = some [0, 0, 0, 0, 0, 0, 0, 1, 0, 0, 0, 0, 0, 0, 0, 1] := by
  decide

/-! ## An oversized relay request -/

/-- After an oversized relay request whose payload is `n` zero bytes, followed
by a list request, the loop takes every payload byte for an identity request. -/
theorem handleConnection_oversized (n : Nat) (w : World) (conn : Nat)
    (hn : MaxMessageLength < n) (hn2 : n < 2 ^ 32) (hb : (w.conns conn).budget = none)
    (hin : (w.conns conn).input
      = 2 :: (toBE 1 0 ++ toBE 4 n ++ List.replicate n 0 ++ [1])) :
    ∃ w2, handleConnection w conn = some w2 ∧
      (w2.conns conn).output
        = (w.conns conn).output ++ (List.replicate n (toBE 8 w.hub.nextUserID)).flatten
          ++ toBE 2 (listUserIDs (registerClient w conn).2.hub w.hub.nextUserID).length
          ++ ((listUserIDs (registerClient w conn).2.hub w.hub.nextUserID).map (toBE 8)).flatten := by
  have hlen : (w.conns conn).input.length + 1 = ((n + 2) + 5) + 1 := by
    rw [hin]
    simp only [List.length_cons, List.length_append, toBE_length, List.length_replicate,
      List.length_nil]
    omega
  have hdec : readRelayRequest (toBE 1 0 ++ toBE 4 n ++ List.replicate n 0 ++ [1])
      = (none, List.replicate n 0 ++ [1]) := by
    have h := readRelayRequest_complete [] (List.replicate n 0) [1] (by simp) (by simp)
      (by rw [List.length_replicate]; exact hn2)
    rw [List.length_replicate, if_neg (by omega)] at h
    simpa [writeReceivers] using h
  rw [handleConnection_eq, hlen]
  rw [dispatchLoop_tag _ _ conn _ 2 _ (by rw [registerClient_conns]; exact hin)]
  rw [show (2 : Nat) % 256 = RelayMessage from rfl, dispatch_relay,
    HandleRelayMessage_none _ _ _ (by rw [setInput_input]; exact hdec), setInput_setInput]
  rw [show n + 2 + 5 = n + 7 from rfl,
    dispatchLoop_identity_run n 7 _ conn _ [1] (by simpa [World.setInput] using hb)
      (by rw [setInput_input])]
  rw [dispatchLoop_tag 6 _ conn _ 1 [] (by simp), show (1 : Nat) % 256 = 1 from rfl, dispatch_list,
    dispatchLoop_eof 5 _ _ _ (by rw [HandleListMessage_input, setInput_input])]
  refine ⟨_, rfl, ?_⟩
  rw [close_output]
  simp only [unregisterClient, setInput_output]
  rw [HandleListMessage_conns_same _ _ _ (by simpa [World.setInput] using hb)]
  simp [World.setInput, registerClient_conns]

/-- C6, the code at the failing input.  The client of connection 10 sends a
relay request with no receiver and a declared length of 1,048,577, its
1,048,577 payload bytes (all zero), and then a list request.  The hub rejects
the request without draining the payload: it answers every payload byte as an
identity request (8 bytes each) before it answers the list request with the
count 0.  Without the oversized request the answer is the count 0 alone. -/
theorem oversized_relay_desynchronizes :
    (∃ w2, handleConnection
        (freshWorld.setInput 10
          (2 :: (toBE 1 0 ++ toBE 4 1048577 ++ List.replicate 1048577 0 ++ [1]))) 10 = some w2 ∧
      (w2.conns 10).output
        = (List.replicate 1048577 [0, 0, 0, 0, 0, 0, 0, 1]).flatten ++ [0, 0]) ∧
    toBE 1 0 ++ toBE 4 1048577 = [0, 0, 16, 0, 1] ∧
    (handleConnection (freshWorld.setInput 10 [1]) 10).map (fun w => (w.conns 10).output)
      = some [0, 0] := by
  refine ⟨?_, by decide, by decide⟩
  obtain ⟨w2, h1, h2⟩ := handleConnection_oversized 1048577
    (freshWorld.setInput 10 (2 :: (toBE 1 0 ++ toBE 4 1048577 ++ List.replicate 1048577 0 ++ [1])))
    10 (by decide) (by norm_num) rfl (setInput_input _ _ _)
  refine ⟨w2, h1, ?_⟩
  rw [h2]
  have e1 : ((freshWorld.setInput 10
      (2 :: (toBE 1 0 ++ toBE 4 1048577 ++ List.replicate 1048577 0 ++ [1]))).conns 10).output = [] :=
    setInput_output _ _ _ _
  have e2 : (freshWorld.setInput 10
      (2 :: (toBE 1 0 ++ toBE 4 1048577 ++ List.replicate 1048577 0 ++ [1]))).hub.nextUserID = 1 := rfl
  have e3 : listUserIDs (registerClient (freshWorld.setInput 10
      (2 :: (toBE 1 0 ++ toBE 4 1048577 ++ List.replicate 1048577 0 ++ [1]))) 10).2.hub 1 = [] := rfl
  have e4 : toBE 8 1 = [0, 0, 0, 0, 0, 0, 0, 1] := by decide
  have e5 : toBE 2 ([] : List Nat).length = [0, 0] := by decide
  rw [e1, e2, e3, e4, e5, List.nil_append, List.map_nil, List.flatten_nil, List.append_nil]

/-! ## The registry invariants are kept by the registry methods -/

theorem mapKeys_mapDelete_nodup (m : List (Nat × Nat)) (k : Nat) (h : (mapKeys m).Nodup) :
    (mapKeys (mapDelete m k)).Nodup :=
  h.sublist ((List.filter_sublist m).map Prod.fst)

theorem not_mem_mapKeys_mapDelete (m : List (Nat × Nat)) (k : Nat) :
    k ∉ mapKeys (mapDelete m k) := by
  rw [mem_mapKeys_iff, mapGet_mapDelete_same]
  simp

/-- Keys stay pairwise distinct under `registerClient` and `unregisterClient`. -/
theorem registry_keys_nodup (w : World) (conn userID : Nat)
    (h : (mapKeys w.hub.clients).Nodup) :
    (mapKeys (registerClient w conn).2.hub.clients).Nodup ∧
    (mapKeys (unregisterClient w userID).hub.clients).Nodup := by
  refine ⟨?_, mapKeys_mapDelete_nodup _ _ h⟩
  simp only [registerClient, mapSet, mapKeys, List.map_append, List.map_cons, List.map_nil]
  apply List.Nodup.append (mapKeys_mapDelete_nodup _ _ h) (List.nodup_singleton _)
  intro a ha hb
  rw [List.mem_singleton] at hb
  subst hb
  exact not_mem_mapKeys_mapDelete _ _ ha

/-- Handles stay pairwise distinct under `unregisterClient`, and under
`registerClient` of a connection that is not registered yet. -/
theorem registry_conns_nodup (w : World) (conn userID : Nat)
    (h : (w.hub.clients.map Prod.snd).Nodup) :
    (conn ∉ w.hub.clients.map Prod.snd →
      ((registerClient w conn).2.hub.clients.map Prod.snd).Nodup) ∧
    ((unregisterClient w userID).hub.clients.map Prod.snd).Nodup := by
  have hd : ∀ k, ((mapDelete w.hub.clients k).map Prod.snd).Nodup :=
    fun k => h.sublist ((List.filter_sublist _).map Prod.snd)
  refine ⟨fun hc => ?_, hd _⟩
  simp only [registerClient, mapSet, List.map_append, List.map_cons, List.map_nil]
  apply List.Nodup.append (hd _) (List.nodup_singleton _)
  intro a ha hb
  rw [List.mem_singleton] at hb
  subst hb
  exact hc (((List.filter_sublist _).map Prod.snd).subset ha)

/-- A relay request whose stream ends inside the payload is not handed to
`relayMessage`: the error of `io.ReadFull` is checked. -/
theorem readRelayRequest_truncated_payload (receivers part : List Nat) (len : Nat)
    (hr : receivers.length < 256) (hid : ∀ r ∈ receivers, r < 2 ^ 64)
    (hl : len < 2 ^ 32) (hshort : part.length < len) :
    (readRelayRequest (toBE 1 receivers.length ++ writeReceivers receivers
        ++ toBE 4 len ++ part)).1 = none := by
  have h1 : receivers.length % 256 ^ 1 = receivers.length := Nat.mod_eq_of_lt (by simpa using hr)
  have h4 : len % 256 ^ 4 = len := Nat.mod_eq_of_lt (by norm_num at hl ⊢; exact hl)
  simp only [readRelayRequest, List.append_assoc, binaryRead_toBE, h1, Option.getD_some,
    readReceivers_writeReceivers _ _ hid, h4]
  by_cases hle : len > MaxMessageLength
  · rw [if_pos hle]
  · rw [if_neg hle]
    simp [readFull, Nat.not_le.mpr hshort]

/-! ## The dispatch loop returns -/

theorem readFull_rest_le (n : Nat) (inp : List Nat) : (readFull n inp).2.length ≤ inp.length := by
  unfold readFull
  split
  · simp
  · simp

theorem binaryRead_rest_le (n : Nat) (inp : List Nat) :
    (binaryRead n inp).2.length ≤ inp.length := by
  have h := readFull_rest_le n inp
  unfold binaryRead
  split
  · rename_i bs rest heq
    rw [heq] at h
    exact h
  · rename_i rest heq
    rw [heq] at h
    exact h

theorem readReceivers_rest_le (n : Nat) (inp : List Nat) :
    (readReceivers n inp).2.length ≤ inp.length := by
  induction n generalizing inp with
  | zero => exact Nat.le_refl _
  | succ n ih =>
    simp only [readReceivers]
    exact Nat.le_trans (ih _) (binaryRead_rest_le 8 inp)

theorem readRelayRequest_rest_le (inp : List Nat) :
    (readRelayRequest inp).2.length ≤ inp.length := by
  have h1 := binaryRead_rest_le 1 inp
  have h2 := readReceivers_rest_le ((binaryRead 1 inp).1.getD 0) (binaryRead 1 inp).2
  have h3 := binaryRead_rest_le 4 (readReceivers ((binaryRead 1 inp).1.getD 0) (binaryRead 1 inp).2).2
  have h4 := readFull_rest_le
    ((binaryRead 4 (readReceivers ((binaryRead 1 inp).1.getD 0) (binaryRead 1 inp).2).2).1.getD 0)
    (binaryRead 4 (readReceivers ((binaryRead 1 inp).1.getD 0) (binaryRead 1 inp).2).2).2
  simp only [readRelayRequest]
  split
  · simp only
    omega
  · split
    · rename_i rest heq
      rw [heq] at h4
      simp only at h4 ⊢
      omega
    · rename_i message rest heq
      rw [heq] at h4
      simp only at h4 ⊢
      omega

theorem HandleRelayMessage_input_le (w : World) (conn : Nat) :
    ((HandleRelayMessage w conn).conns conn).input.length ≤ (w.conns conn).input.length := by
  have h := readRelayRequest_rest_le (w.conns conn).input
  unfold HandleRelayMessage
  split
  · rename_i receivers message rest heq
    rw [heq] at h
    rw [relayMessage_input, setInput_input]
    exact h
  · rename_i rest heq
    rw [heq] at h
    rw [setInput_input]
    exact h

theorem dispatch_input_le (w : World) (conn userID messageType : Nat) :
    ((dispatch w conn userID messageType).conns conn).input.length
      ≤ (w.conns conn).input.length := by
  unfold dispatch
  split
  · rw [HandleIdentityMessage, write_input]
  · split
    · rw [HandleListMessage_input]
    · split
      · exact HandleRelayMessage_input_le w conn
      · exact Nat.le_refl _

/-- The loop of `handleConnection` returns as soon as the iterations allowed
exceed the number of unread bytes. -/
theorem dispatchLoop_isSome (fuel : Nat) (w : World) (conn userID : Nat)
    (h : (w.conns conn).input.length < fuel) :
    (dispatchLoop fuel w conn userID).isSome = true := by
  induction fuel generalizing w with
  | zero => omega
  | succ fuel ih =>
    cases hin : (w.conns conn).input with
    | nil => rw [dispatchLoop_eof _ _ _ _ hin]; rfl
    | cons t rest =>
      rw [dispatchLoop_tag _ _ _ _ t rest hin]
      apply ih
      have h1 := dispatch_input_le (w.setInput conn rest) conn userID (t % 256)
      rw [setInput_input] at h1
      rw [hin, List.length_cons] at h
      omega

/-- Method `handleConnection` returns on every finite input. -/
theorem handleConnection_isSome (w : World) (conn : Nat) :
    (handleConnection w conn).isSome = true := by
  rw [handleConnection_eq, Option.isSome_map']
  exact dispatchLoop_isSome _ _ _ _ (by rw [registerClient_conns]; omega)

/-! ## Client-side validation of a relay request -/

/-- C12. For every receiver list and payload, `SendRelayMessage` returns an
error exactly when the list has more than 255 entries or the payload more than
1,048,576 bytes; with an error nothing is written; without one the frame is
written and no error is returned, whatever the hub's registry holds (the
result does not depend on any hub state: the errors of the writes are dropped
and nothing is read back). -/
theorem SendRelayMessage_validation (receivers message : List Nat) :
    ((SendRelayMessage receivers message).2 = true
      ↔ 255 < receivers.length ∨ 1048576 < message.length) ∧
    ((SendRelayMessage receivers message).2 = true → (SendRelayMessage receivers message).1 = []) ∧
    ((SendRelayMessage receivers message).2 = false →
      (SendRelayMessage receivers message).1
        = 2 :: (toBE 1 receivers.length ++ writeReceivers receivers
            ++ toBE 4 message.length ++ message)) := by
  by_cases h1 : receivers.length > MaxReceivers
  · have e : SendRelayMessage receivers message = ([], true) := by simp [SendRelayMessage, h1]
    have h1' : 255 < receivers.length := h1
    rw [e]
    simp [h1']
  · by_cases h2 : message.length > MaxMessageLength
    · have e : SendRelayMessage receivers message = ([], true) := by
        simp [SendRelayMessage, h1, h2]
      have h2' : 1048576 < message.length := h2
      rw [e]
      simp [h2']
    · have e : SendRelayMessage receivers message
          = (2 :: (toBE 1 receivers.length ++ writeReceivers receivers
              ++ toBE 4 message.length ++ message), false) := by
        simp [SendRelayMessage, h1, h2, toBE, RelayMessage]
      have h1' : ¬ 255 < receivers.length := h1
      have h2' : ¬ 1048576 < message.length := h2
      rw [e]
      simp [h1', h2']

/-! ## Unknown message types -/

theorem dispatch_unknown (w : World) (conn userID t : Nat)
    (h0 : t ≠ 0) (h1 : t ≠ 1) (h2 : t ≠ 2) : dispatch w conn userID t = w := by
  simp [dispatch, IdentityMessage, ListMessage, RelayMessage, h0, h1, h2]

/-- C17. For every tag byte other than 0, 1 and 2, one iteration of the
dispatch loop consumes exactly that byte, writes nothing to any connection,
leaves the registry unchanged and goes on with the next iteration on the
bytes that follow. -/
theorem dispatchLoop_skips_unknown (fuel : Nat) (w : World) (conn userID t : Nat)
    (rest : List Nat) (ht : t < 256) (h0 : t ≠ 0) (h1 : t ≠ 1) (h2 : t ≠ 2)
    (hin : (w.conns conn).input = t :: rest) :
    dispatchLoop (fuel + 1) w conn userID = dispatchLoop fuel (w.setInput conn rest) conn userID ∧
    ((w.setInput conn rest).conns conn).input = rest ∧
    (w.setInput conn rest).hub = w.hub ∧
    (∀ c, ((w.setInput conn rest).conns c).output = (w.conns c).output) ∧
    (∀ c, c ≠ conn → (w.setInput conn rest).conns c = w.conns c) := by
  refine ⟨?_, setInput_input _ _ _, rfl, fun c => setInput_output _ _ _ _,
    fun c hc => setInput_conns_other _ _ hc⟩
  rw [dispatchLoop_tag fuel w conn userID t rest hin, Nat.mod_eq_of_lt ht,
    dispatch_unknown _ _ _ _ h0 h1 h2]

/-- C17, witness: the unknown tag 7 followed by an identity request. -/
theorem dispatchLoop_skips_unknown_witness :
    dispatchLoop (1 + 1) (threeClients.setInput 10 [7, 0]) 10 1
      = dispatchLoop 1 ((threeClients.setInput 10 [7, 0]).setInput 10 [0]) 10 1 :=
  (dispatchLoop_skips_unknown 1 (threeClients.setInput 10 [7, 0]) 10 1 7 [0]
    (by decide) (by decide) (by decide) (by decide) (by simp)).1

/-! ## Identity request -/

theorem sendIdentityMessage_toBE (u : Nat) (reply : List Nat) (hu : u < 2 ^ 64) :
    sendIdentityMessage (toBE 8 u ++ reply) = ([0], some u, reply) := by
  have h8 : u % 256 ^ 8 = u := Nat.mod_eq_of_lt (by norm_num at hu ⊢; exact hu)
  rw [sendIdentityMessage, binaryRead_toBE, h8]
  rfl

/-- C18. For every connection registered with the identity `u` (a `uint64`)
whose transport accepts the write, one iteration of the dispatch loop on a
client frame with tag 0 appends exactly the 8 big-endian bytes of `u` (no tag
byte) to that connection and consumes the tag, changing nothing else (the
registry still maps `u` to the connection); `sendIdentityMessage` decodes
those bytes to exactly `u`.  Run from `handleConnection`, a client that sends
the tag 0 gets the 8 bytes of the key under which `registerClient` registered
its connection. -/
theorem identity_request_roundtrip (w : World) (conn u fuel : Nat) (rest reply : List Nat)
    (hreg : mapGet w.hub.clients u = some conn) (hu : u < 2 ^ 64)
    (hb : (w.conns conn).budget = none) (hin : (w.conns conn).input = 0 :: rest) :
    dispatchLoop (fuel + 1) w conn u
      = dispatchLoop fuel
          (w.setConn conn { w.conns conn with
            input := rest, output := (w.conns conn).output ++ toBE 8 u }) conn u ∧
    mapGet (w.setConn conn { w.conns conn with
        input := rest, output := (w.conns conn).output ++ toBE 8 u }).hub.clients u = some conn ∧
    toBE 8 u = [u / 72057594037927936 % 256, u / 281474976710656 % 256, u / 1099511627776 % 256,
      u / 4294967296 % 256, u / 16777216 % 256, u / 65536 % 256, u / 256 % 256, u % 256] ∧
    sendIdentityMessage (toBE 8 u ++ reply) = ([0], some u, reply) ∧
    (∀ w0 : World, w0.hub.nextUserID < 2 ^ 64 → (w0.conns conn).budget = none →
      (w0.conns conn).input = (sendIdentityMessage []).1 →
      ∃ w2, handleConnection w0 conn = some w2 ∧
        mapGet (registerClient w0 conn).2.hub.clients (registerClient w0 conn).1 = some conn ∧
        (w2.conns conn).output
          = (w0.conns conn).output ++ toBE 8 (registerClient w0 conn).1 ∧
        (sendIdentityMessage (toBE 8 (registerClient w0 conn).1)).2.1
          = some (registerClient w0 conn).1) := by
  refine ⟨?_, hreg, toBE_eight u, sendIdentityMessage_toBE u reply hu, ?_⟩
  · rw [dispatchLoop_tag _ w conn u 0 _ hin, show (0 : Nat) % 256 = 0 from rfl,
      dispatch_identity, HandleIdentityMessage_setInput _ _ _ _ hb]
  · intro w0 hn hb0 hin0
    obtain ⟨w2, h1, h2⟩ := handleConnection_identity_run 1 w0 conn hb0 hin0
    refine ⟨w2, h1, mapGet_mapSet_same _ _ _, ?_, ?_⟩
    · rw [h2]
      simp [registerClient]
    · have := sendIdentityMessage_toBE (registerClient w0 conn).1 [] hn
      rw [List.append_nil] at this
      rw [this]

/-- C18, witness: the client registered with identity 2 on connection 11 asks
for its identity. -/
theorem identity_request_roundtrip_witness :
    dispatchLoop (0 + 1) (threeClients.setInput 11 [0]) 11 2
      = dispatchLoop 0
          ((threeClients.setInput 11 [0]).setConn 11
            { (threeClients.setInput 11 [0]).conns 11 with
              input := [],
              output := ((threeClients.setInput 11 [0]).conns 11).output ++ toBE 8 2 }) 11 2 ∧
    sendIdentityMessage (toBE 8 2 ++ []) = ([0], some 2, []) :=
  ⟨(identity_request_roundtrip (threeClients.setInput 11 [0]) 11 2 0 [] []
      (by decide) (by decide) rfl (by simp)).1,
   (identity_request_roundtrip (threeClients.setInput 11 [0]) 11 2 0 [] []
      (by decide) (by decide) rfl (by simp)).2.2.2.1⟩

/-! ## Termination of the dispatch loop -/

theorem dispatchLoop_mono (fuel more : Nat) (w w2 : World) (conn userID : Nat)
    (h : dispatchLoop fuel w conn userID = some w2) :
    dispatchLoop (fuel + more) w conn userID = some w2 := by
  induction fuel generalizing w with
  | zero => simp [dispatchLoop] at h
  | succ fuel ih =>
    rw [show fuel + 1 + more = (fuel + more) + 1 from by omega]
    cases hin : (w.conns conn).input with
    | nil =>
      rw [dispatchLoop_eof _ _ _ _ hin] at h ⊢
      exact h
    | cons t rest =>
      rw [dispatchLoop_tag _ _ _ _ t rest hin] at h ⊢
      exact ih _ h

/-- C20. For every state, connection and finite unread input, the loop of
`handleConnection` reaches its exit: one iteration more than there are unread
bytes is enough, and allowing more iterations gives the same final state.  An
iteration at end of stream returns; any other iteration consumes the tag and
leaves strictly fewer unread bytes on the connection.  Hence `handleConnection`
returns. -/
theorem dispatchLoop_terminates (w : World) (conn userID : Nat) :
    (∃ w2, dispatchLoop ((w.conns conn).input.length + 1) w conn userID = some w2 ∧
      ∀ more, dispatchLoop ((w.conns conn).input.length + 1 + more) w conn userID = some w2) ∧
    ((w.conns conn).input = [] →
      ∀ fuel, dispatchLoop (fuel + 1) w conn userID = some (w.setInput conn [])) ∧
    (∀ t rest, (w.conns conn).input = t :: rest →
      (∀ fuel, dispatchLoop (fuel + 1) w conn userID
        = dispatchLoop fuel (dispatch (w.setInput conn rest) conn userID (t % 256)) conn userID) ∧
      ((dispatch (w.setInput conn rest) conn userID (t % 256)).conns conn).input.length
        < (w.conns conn).input.length) ∧
    (∃ w3, handleConnection w conn = some w3) := by
  refine ⟨?_, fun hin fuel => dispatchLoop_eof fuel w conn userID hin, ?_, ?_⟩
  · have h := dispatchLoop_isSome ((w.conns conn).input.length + 1) w conn userID (by omega)
    obtain ⟨w2, hw2⟩ := Option.isSome_iff_exists.mp h
    exact ⟨w2, hw2, fun more => dispatchLoop_mono _ more _ _ _ _ hw2⟩
  · intro t rest hin
    refine ⟨fun fuel => dispatchLoop_tag fuel w conn userID t rest hin, ?_⟩
    have h1 := dispatch_input_le (w.setInput conn rest) conn userID (t % 256)
    rw [setInput_input] at h1
    rw [hin, List.length_cons]
    omega
  · exact Option.isSome_iff_exists.mp (handleConnection_isSome w conn)

/-! ## The exclusive lock is held during the writes of `relayMessage` -/

theorem applyEvents_append (w : World) (a b : List RelayEvent) :
    applyEvents w (a ++ b) = applyEvents (applyEvents w a) b := by
  induction a generalizing w with
  | nil => rfl
  | cons e a ih =>
    cases e <;> simp [applyEvents, ih]

theorem relayOneEvents_some (h : Hub) (message : List Nat) (r c : Nat)
    (hc : mapGet h.clients r = some c) :
    relayOneEvents h message r
      = [RelayEvent.lookup r, RelayEvent.write c (toBE 1 RelayMessage),
          RelayEvent.write c (toBE 4 message.length), RelayEvent.write c message] := by
  simp [relayOneEvents, hc]

theorem relayOneEvents_none (h : Hub) (message : List Nat) (r : Nat)
    (hc : mapGet h.clients r = none) :
    relayOneEvents h message r = [RelayEvent.lookup r] := by
  simp [relayOneEvents, hc]

theorem applyEvents_relayOneEvents (w : World) (message : List Nat) (r : Nat) :
    applyEvents w (relayOneEvents w.hub message r) = relayOne message w r := by
  cases hc : mapGet w.hub.clients r with
  | none => rw [relayOneEvents_none _ _ _ hc]; simp [relayOne, hc, applyEvents]
  | some c => rw [relayOneEvents_some _ _ _ _ hc]; simp [relayOne, hc, applyEvents]

theorem applyEvents_relay_loop (h : Hub) (w : World) (receivers message : List Nat)
    (hw : w.hub = h) :
    applyEvents w (receivers.flatMap (relayOneEvents h message))
      = relayMessage w receivers message := by
  induction receivers generalizing w with
  | nil => rfl
  | cons r rs ih =>
    rw [List.flatMap_cons, applyEvents_append, relayMessage_cons, ← hw,
      applyEvents_relayOneEvents, hw]
    exact ih _ (by rw [relayOne_hub, hw])

theorem writesWhileUnlocked_relay_loop (h : Hub) (receivers message : List Nat)
    (tail : List RelayEvent) :
    writesWhileUnlocked true (receivers.flatMap (relayOneEvents h message) ++ tail)
      = writesWhileUnlocked true tail := by
  induction receivers with
  | nil => rfl
  | cons r rs ih =>
    rw [List.flatMap_cons, List.append_assoc]
    cases hc : mapGet h.clients r with
    | none => rw [relayOneEvents_none _ _ _ hc]; simpa [writesWhileUnlocked] using ih
    | some c => rw [relayOneEvents_some _ _ _ _ hc]; simpa [writesWhileUnlocked] using ih

theorem mem_writesWhileLocked_relay_loop (h : Hub) (receivers message : List Nat)
    (tail : List RelayEvent) (r c : Nat) (hr : r ∈ receivers) (hc : mapGet h.clients r = some c) :
    (c, message) ∈ writesWhileLocked true (receivers.flatMap (relayOneEvents h message) ++ tail) := by
  induction receivers with
  | nil => cases hr
  | cons r' rs ih =>
    rw [List.flatMap_cons, List.append_assoc]
    rcases List.mem_cons.mp hr with heq | hmem
    · subst heq
      rw [relayOneEvents_some _ _ _ _ hc]
      simp [writesWhileLocked]
    · have := ih hmem
      cases hc' : mapGet h.clients r' with
      | none => rw [relayOneEvents_none _ _ _ hc']; simpa [writesWhileLocked] using this
      | some c' => rw [relayOneEvents_some _ _ _ _ hc']; simp [writesWhileLocked, this]

theorem not_mem_relay_loop (h : Hub) (receivers message : List Nat) :
    RelayEvent.unlock ∉ receivers.flatMap (relayOneEvents h message) ∧
    RelayEvent.lock ∉ receivers.flatMap (relayOneEvents h message) := by
  constructor <;>
  · intro hmem
    obtain ⟨r, _, hr⟩ := List.mem_flatMap.mp hmem
    cases hc : mapGet h.clients r with
    | none => rw [relayOneEvents_none _ _ _ hc] at hr; simp at hr
    | some c => rw [relayOneEvents_some _ _ _ _ hc] at hr; simp at hr

/-- C16, as amended. `relayMessage` takes the exclusive lock first and
releases it last, without releasing it in between: its events are the lock,
then for each receiver in order the lookup and the writes, then the unlock.
No write is performed while the lock is not held, and the payload of every
registered receiver is written while it is held.  Performing the writes of
these events in order gives the state `relayMessage` computes. -/
theorem relayMessage_writes_under_lock (w : World) (receivers message : List Nat) :
    applyEvents w (relayMessageEvents w.hub receivers message)
      = relayMessage w receivers message ∧
    relayMessageEvents w.hub receivers message
      = RelayEvent.lock ::
          (receivers.flatMap (relayOneEvents w.hub message) ++ [RelayEvent.unlock]) ∧
    RelayEvent.unlock ∉ receivers.flatMap (relayOneEvents w.hub message) ∧
    writesWhileUnlocked false (relayMessageEvents w.hub receivers message) = [] ∧
    (∀ r ∈ receivers, ∀ c, mapGet w.hub.clients r = some c →
      (c, message) ∈ writesWhileLocked false (relayMessageEvents w.hub receivers message)) := by
  refine ⟨?_, rfl, (not_mem_relay_loop _ _ _).1, ?_, ?_⟩
  · rw [relayMessageEvents]
    show applyEvents w (receivers.flatMap (relayOneEvents w.hub message) ++ [RelayEvent.unlock]) = _
    rw [applyEvents_append, applyEvents_relay_loop _ _ _ _ rfl]
    rfl
  · rw [relayMessageEvents]
    show writesWhileUnlocked true _ = []
    rw [writesWhileUnlocked_relay_loop]
    rfl
  · intro r hr c hc
    rw [relayMessageEvents]
    show (c, message) ∈ writesWhileLocked true _
    exact mem_writesWhileLocked_relay_loop _ _ _ _ r c hr hc

/-- C16, counterexample. With the identities 1, 2, 3 registered, a relay to
the identity 2 performs its three writes to connection 11 between the lock and
the unlock: the exclusive lock is held while the hub writes to the peer, and no
snapshot is taken. -/
theorem relayMessage_holds_lock_while_writing :
    relayMessageEvents threeClients.hub [2] [72, 105]
      = [RelayEvent.lock, RelayEvent.lookup 2, RelayEvent.write 11 [2],
          RelayEvent.write 11 [0, 0, 0, 2], RelayEvent.write 11 [72, 105], RelayEvent.unlock] ∧
    writesWhileLocked false (relayMessageEvents threeClients.hub [2] [72, 105])
      = [(11, [2]), (11, [0, 0, 0, 2]), (11, [72, 105])] := by
  decide

/-! ## Failing transports -/

theorem Conn.write_some (c : Conn) (bs : List Nat) (k : Nat) (h : c.budget = some k) :
    (c.write bs).1
      = { c with output := c.output ++ bs.take k, budget := some (k - bs.length) } := by
  unfold Conn.write
  rw [h]
  simp only
  split
  · rename_i hle
    rw [List.take_of_length_le hle]
  · rename_i hle
    have : k - bs.length = 0 := by omega
    rw [this]

theorem relayOne_conns_limited (message : List Nat) (w : World) (r c k : Nat)
    (h : mapGet w.hub.clients r = some c) (hb : (w.conns c).budget = some k) :
    (relayOne message w r).conns c
      = { w.conns c with
          output := (w.conns c).output
            ++ (RelayMessage :: (toBE 4 message.length ++ message)).take k,
          budget := some (k - (RelayMessage :: (toBE 4 message.length ++ message)).length) } := by
  unfold relayOne
  rw [h]
  simp only [write_conns_same]
  rw [Conn.write_some _ (toBE 1 RelayMessage) k hb,
    Conn.write_some _ (toBE 4 message.length) (k - (toBE 1 RelayMessage).length) rfl,
    Conn.write_some _ message
      (k - (toBE 1 RelayMessage).length - (toBE 4 message.length).length) rfl]
  have e : RelayMessage :: (toBE 4 message.length ++ message)
      = toBE 1 RelayMessage ++ (toBE 4 message.length ++ message) := rfl
  rw [e]
  simp only [List.take_append_eq_append_take, List.append_assoc, List.length_append,
    Nat.sub_sub, Nat.add_assoc]

/-- What a connection whose transport accepts only `k` more bytes holds after
`relayMessage`: the first `k` bytes of the frames addressed to it. -/
theorem relayMessage_conns_limited (w : World) (receivers message : List Nat) (c k : Nat)
    (hb : (w.conns c).budget = some k) :
    (relayMessage w receivers message).conns c
      = { w.conns c with
          output := (w.conns c).output ++
            ((List.replicate (receivers.countP (fun r => decide (mapGet w.hub.clients r = some c)))
              (RelayMessage :: (toBE 4 message.length ++ message))).flatten).take k,
          budget := some (k -
            ((List.replicate (receivers.countP (fun r => decide (mapGet w.hub.clients r = some c)))
              (RelayMessage :: (toBE 4 message.length ++ message))).flatten).length) } := by
  induction receivers generalizing w k with
  | nil =>
    simp only [relayMessage, List.foldl_nil, List.countP_nil, List.replicate_zero,
      List.flatten_nil, List.take_nil, List.append_nil, List.length_nil, Nat.sub_zero]
    rw [← hb]
  | cons r rs ih =>
    rw [relayMessage_cons]
    by_cases hr : mapGet w.hub.clients r = some c
    · have h1 := relayOne_conns_limited message w r c k hr hb
      have hb1 : ((relayOne message w r).conns c).budget
          = some (k - (RelayMessage :: (toBE 4 message.length ++ message)).length) := by rw [h1]
      rw [ih _ _ hb1, relayOne_hub, h1, List.countP_cons_of_pos _ _ (by simpa using hr)]
      simp only [List.replicate_succ, List.flatten_cons, List.take_append_eq_append_take,
        List.append_assoc, List.length_append, Nat.sub_sub, Nat.add_assoc]
    · have h1 := relayOne_conns_other message w r c hr
      have hb1 : ((relayOne message w r).conns c).budget = some k := by rw [h1]; exact hb
      rw [ih _ _ hb1, relayOne_hub, h1, List.countP_cons_of_neg _ _ (by simpa using hr)]

theorem countP_registered_eq_count (m : List (Nat × Nat)) (receivers : List Nat) (u c : Nat)
    (hinj : (m.map Prod.snd).Nodup) (hc : mapGet m u = some c) :
    receivers.countP (fun r => decide (mapGet m r = some c)) = receivers.count u := by
  rw [List.count]
  apply List.countP_congr
  intro x _
  simp only [decide_eq_true_eq, beq_iff_eq]
  constructor
  · intro hx
    exact mapGet_inj _ hinj hx hc
  · intro hx
    rw [hx]
    exact hc

theorem relayMessage_append (w : World) (a b message : List Nat) :
    relayMessage w (a ++ b) message = relayMessage (relayMessage w a message) b message := by
  simp [relayMessage, List.foldl_append]

/-- C15. Whatever happens on the other connections (their transports may fail
at any byte), `relayMessage` leaves the registry unchanged and every
connection whose own transport accepts the writes holds, afterwards, one
complete delivery frame for every listed identity registered to it, at least
one for every listed registered receiver; a connection whose transport
accepts only `k` more bytes holds the first `k` bytes of its frames and the
loop goes on.  No error is reported: `relayMessage` returns the state alone. -/
theorem relayMessage_failure_isolation (w : World) (receivers message : List Nat) :
    (relayMessage w receivers message).hub = w.hub ∧
    (∀ c, (w.conns c).budget = none →
      (relayMessage w receivers message).conns c
        = { w.conns c with
            output := (w.conns c).output ++
              (List.replicate
                (receivers.countP (fun r => decide (mapGet w.hub.clients r = some c)))
                (RelayMessage :: (toBE 4 message.length ++ message))).flatten }) ∧
    (∀ r ∈ receivers, ∀ c, mapGet w.hub.clients r = some c →
      1 ≤ receivers.countP (fun r => decide (mapGet w.hub.clients r = some c))) ∧
    (∀ c k, (w.conns c).budget = some k →
      (relayMessage w receivers message).conns c
        = { w.conns c with
            output := (w.conns c).output ++
              ((List.replicate
                (receivers.countP (fun r => decide (mapGet w.hub.clients r = some c)))
                (RelayMessage :: (toBE 4 message.length ++ message))).flatten).take k,
            budget := some (k -
              ((List.replicate
                (receivers.countP (fun r => decide (mapGet w.hub.clients r = some c)))
                (RelayMessage :: (toBE 4 message.length ++ message))).flatten).length) }) := by
  refine ⟨relayMessage_hub _ _ _, fun c hb => relayMessage_conns_count w receivers message c hb,
    ?_, fun c k hb => relayMessage_conns_limited w receivers message c k hb⟩
  intro r hr c hc
  exact List.countP_pos_iff.mpr ⟨r, hr, by simpa using hc⟩

/-- C15, witness: the identities 1, 2, 3 on the connections 10, 11, 12, where
the transport of connection 11 fails after 3 bytes; a relay to 1, 2, 3 gives
complete frames to the connections 10 and 12 (before and after the failing
one) and the first 3 bytes to connection 11. -/
theorem relayMessage_failure_isolation_witness :
    ((relayMessage (threeClients.setConn 11 { idleConn with budget := some 3 })
        [1, 2, 3] [72, 105]).conns 10).output = [2, 0, 0, 0, 2, 72, 105] ∧
    ((relayMessage (threeClients.setConn 11 { idleConn with budget := some 3 })
        [1, 2, 3] [72, 105]).conns 12).output = [2, 0, 0, 0, 2, 72, 105] ∧
    ((relayMessage (threeClients.setConn 11 { idleConn with budget := some 3 })
        [1, 2, 3] [72, 105]).conns 11).output = [2, 0, 0] :=
  ⟨(congrArg Conn.output
      ((relayMessage_failure_isolation (threeClients.setConn 11 { idleConn with budget := some 3 })
        [1, 2, 3] [72, 105]).2.1 10 rfl)).trans (by decide),
   (congrArg Conn.output
      ((relayMessage_failure_isolation (threeClients.setConn 11 { idleConn with budget := some 3 })
        [1, 2, 3] [72, 105]).2.1 12 rfl)).trans (by decide),
   (congrArg Conn.output
      ((relayMessage_failure_isolation (threeClients.setConn 11 { idleConn with budget := some 3 })
        [1, 2, 3] [72, 105]).2.2.2 11 3 rfl)).trans (by decide)⟩

/-- C19. For every state, receiver list and payload, `relayMessage` handles
the receivers in list order (the result is that of the first receiver's
iteration followed by the rest, of a prefix followed by the suffix, and of
performing each receiver's writes in list order), and a connection whose
transport accepts the writes holds afterwards exactly as many delivery frames
as listed identities are registered to it: in a registry that gives a
connection one identity `u`, as many as `u` occurs in the list, the sender's
own connection included. -/
theorem relayMessage_multiplicity (w : World) (receivers message : List Nat) :
    (∀ r rs, relayMessage w (r :: rs) message
      = relayMessage (relayOne message w r) rs message) ∧
    (∀ a b, relayMessage w (a ++ b) message
      = relayMessage (relayMessage w a message) b message) ∧
    applyEvents w (receivers.flatMap (relayOneEvents w.hub message))
      = relayMessage w receivers message ∧
    (∀ c, (w.conns c).budget = none →
      (relayMessage w receivers message).conns c
        = { w.conns c with
            output := (w.conns c).output ++
              (List.replicate
                (receivers.countP (fun r => decide (mapGet w.hub.clients r = some c)))
                (RelayMessage :: (toBE 4 message.length ++ message))).flatten }) ∧
    (∀ u c, mapGet w.hub.clients u = some c → (w.hub.clients.map Prod.snd).Nodup →
      (w.conns c).budget = none →
      (relayMessage w receivers message).conns c
        = { w.conns c with
            output := (w.conns c).output ++
              (List.replicate (receivers.count u)
                (RelayMessage :: (toBE 4 message.length ++ message))).flatten }) := by
  refine ⟨fun r rs => relayMessage_cons w r rs message, fun a b => relayMessage_append w a b message,
    applyEvents_relay_loop _ _ _ _ rfl,
    fun c hb => relayMessage_conns_count w receivers message c hb, ?_⟩
  intro u c hc hinj hb
  rw [relayMessage_conns_count w receivers message c hb,
    countP_registered_eq_count _ receivers u c hinj hc]

/-- C19, witness: the client with identity 1 (connection 10) relays to 1, 2
and 1 again: it receives its own message twice, identity 2 once. -/
theorem relayMessage_multiplicity_witness :
    ((relayMessage threeClients [1, 2, 1] [72, 105]).conns 10).output
      = [2, 0, 0, 0, 2, 72, 105, 2, 0, 0, 0, 2, 72, 105] ∧
    ((relayMessage threeClients [1, 2, 1] [72, 105]).conns 11).output
      = [2, 0, 0, 0, 2, 72, 105] ∧
    ((HandleRelayMessage (threeClients.setInput 10
        (toBE 1 3 ++ writeReceivers [1, 2, 1] ++ toBE 4 2 ++ [72, 105])) 10).conns 10).output
      = [2, 0, 0, 0, 2, 72, 105, 2, 0, 0, 0, 2, 72, 105] :=
  ⟨(congrArg Conn.output
      ((relayMessage_multiplicity threeClients [1, 2, 1] [72, 105]).2.2.2.2
        1 10 (by decide) (by decide) rfl)).trans (by decide),
   (congrArg Conn.output
      ((relayMessage_multiplicity threeClients [1, 2, 1] [72, 105]).2.2.2.2
        2 11 (by decide) (by decide) rfl)).trans (by decide),
   by decide⟩

/-! ## Registration and the life of a connection -/

theorem mapKeys_mapSet_absent (m : List (Nat × Nat)) (k v : Nat) (h : mapGet m k = none) :
    mapKeys (mapSet m k v) = mapKeys m ++ [k] := by
  simp [mapSet, mapDelete_absent _ _ h, mapKeys]

theorem mapDelete_mapSet_absent (m : List (Nat × Nat)) (k v : Nat) (h : mapGet m k = none) :
    mapDelete (mapSet m k v) k = m := by
  have h1 : mapDelete (m ++ [(k, v)]) k = mapDelete m k := by
    simp [mapDelete, List.filter_append]
  rw [mapSet, mapDelete_absent _ _ h, h1, mapDelete_absent _ _ h]

/-- C14, as amended. In every state whose `nextUserID` is not yet a key of the
registry and is below 2^64 - 1, and for every connection handle `c`,
`registerClient(c)` returns `id = nextUserID`; afterwards the registry maps
`id` to `c`, every entry that existed before keeps its handle, the keys are the
old keys and `id` (one more than before, and still without repetition),
`nextUserID` is `id + 1` and no connection was touched. -/
theorem registerClient_postcondition (w : World) (c : Nat)
    (hfresh : mapGet w.hub.clients w.hub.nextUserID = none)
    (hmax : w.hub.nextUserID + 1 < 2 ^ 64) :
    (registerClient w c).1 = w.hub.nextUserID ∧
    mapGet (registerClient w c).2.hub.clients (registerClient w c).1 = some c ∧
    (∀ k h, mapGet w.hub.clients k = some h →
      mapGet (registerClient w c).2.hub.clients k = some h) ∧
    (∀ k, k ∈ mapKeys (registerClient w c).2.hub.clients
      ↔ k = (registerClient w c).1 ∨ k ∈ mapKeys w.hub.clients) ∧
    (registerClient w c).1 ∉ mapKeys w.hub.clients ∧
    (mapKeys (registerClient w c).2.hub.clients).length = (mapKeys w.hub.clients).length + 1 ∧
    ((mapKeys w.hub.clients).Nodup → (mapKeys (registerClient w c).2.hub.clients).Nodup) ∧
    (registerClient w c).2.hub.nextUserID = (registerClient w c).1 + 1 ∧
    (registerClient w c).2.conns = w.conns := by
  have hkeys : mapKeys (registerClient w c).2.hub.clients
      = mapKeys w.hub.clients ++ [w.hub.nextUserID] := mapKeys_mapSet_absent _ _ _ hfresh
  have hnot : w.hub.nextUserID ∉ mapKeys w.hub.clients := by
    rw [mem_mapKeys_iff, hfresh]
    simp
  refine ⟨rfl, mapGet_mapSet_same _ _ _, ?_, ?_, hnot, ?_, fun hk => (registry_keys_nodup w c 0 hk).1,
    ?_, rfl⟩
  · intro k h hk
    have hne : k ≠ w.hub.nextUserID := by
      intro e
      rw [e, hfresh] at hk
      cases hk
    show mapGet (mapSet w.hub.clients w.hub.nextUserID c) k = some h
    rw [mapGet_mapSet_other _ _ hne, hk]
  · intro k
    rw [hkeys, List.mem_append, List.mem_singleton]
    exact ⟨fun h => h.symm, fun h => h.symm⟩
  · rw [hkeys, List.length_append, List.length_singleton]
  · show (w.hub.nextUserID + 1) % 2 ^ 64 = w.hub.nextUserID + 1
    exact Nat.mod_eq_of_lt hmax

/-- C14, witness: a fourth client registers after the identities 1, 2, 3. -/
theorem registerClient_postcondition_witness :
    (registerClient threeClients 13).1 = 4 ∧
    mapGet (registerClient threeClients 13).2.hub.clients (registerClient threeClients 13).1
      = some 13 ∧
    (registerClient threeClients 13).2.hub.nextUserID = (registerClient threeClients 13).1 + 1 :=
  ⟨(registerClient_postcondition threeClients 13 (by decide) (by decide)).1,
   (registerClient_postcondition threeClients 13 (by decide) (by decide)).2.1,
   (registerClient_postcondition threeClients 13 (by decide) (by decide)).2.2.2.2.2.2.2.1⟩

/-- C14, counterexample. In the state whose registry maps 5 to connection 10
and whose `nextUserID` is 5 (a counter that has wrapped around), registering
connection 11 returns 5 and overwrites the entry: 5 now maps to 11 and the
registry still has one key.  In the state whose `nextUserID` is 2^64 - 1,
registering returns 2^64 - 1 and `nextUserID` becomes 0, not `id + 1`. -/
theorem registerClient_overwrites_and_wraps :
    (registerClient { hub := { clients := [(5, 10)], nextUserID := 5 },
                      conns := fun _ => idleConn } 11).1 = 5 ∧
    mapGet (registerClient { hub := { clients := [(5, 10)], nextUserID := 5 },
                             conns := fun _ => idleConn } 11).2.hub.clients 5 = some 11 ∧
    mapKeys (registerClient { hub := { clients := [(5, 10)], nextUserID := 5 },
                              conns := fun _ => idleConn } 11).2.hub.clients = [5] ∧
    (registerClient { hub := { clients := [], nextUserID := 2 ^ 64 - 1 },
                      conns := fun _ => idleConn } 11).1 = 2 ^ 64 - 1 ∧
    (registerClient { hub := { clients := [], nextUserID := 2 ^ 64 - 1 },
                      conns := fun _ => idleConn } 11).2.hub.nextUserID = 0 := by
  decide

theorem dispatch_hub (w : World) (conn userID messageType : Nat) :
    (dispatch w conn userID messageType).hub = w.hub := by
  unfold dispatch
  split
  · rfl
  · split
    · exact HandleListMessage_hub _ _ _
    · split
      · unfold HandleRelayMessage
        split
        · rw [relayMessage_hub]
          rfl
        · rfl
      · rfl

theorem dispatchLoop_hub (fuel : Nat) (w w2 : World) (conn userID : Nat)
    (h : dispatchLoop fuel w conn userID = some w2) : w2.hub = w.hub := by
  induction fuel generalizing w with
  | zero => simp [dispatchLoop] at h
  | succ fuel ih =>
    cases hin : (w.conns conn).input with
    | nil =>
      rw [dispatchLoop_eof _ _ _ _ hin] at h
      cases h
      rfl
    | cons t rest =>
      rw [dispatchLoop_tag _ _ _ _ t rest hin] at h
      rw [ih _ h, dispatch_hub]
      rfl

/-- C13, as amended. In every state whose `nextUserID` is not yet a key of the
registry and is below 2^64 - 1, and for every finite input of the connection,
`handleConnection` returns; afterwards the identity it registered is not a
key, the registry is what it was before the call (every entry present and
unchanged), `nextUserID` is one greater and the connection is closed. -/
theorem handleConnection_lifecycle (w : World) (conn : Nat)
    (hfresh : mapGet w.hub.clients w.hub.nextUserID = none)
    (hmax : w.hub.nextUserID + 1 < 2 ^ 64) :
    ∃ w2, handleConnection w conn = some w2 ∧
      mapGet w2.hub.clients (registerClient w conn).1 = none ∧
      (∀ k, mapGet w2.hub.clients k = mapGet w.hub.clients k) ∧
      w2.hub.clients = w.hub.clients ∧
      w2.hub.nextUserID = w.hub.nextUserID + 1 ∧
      (w2.conns conn).closed = true := by
  obtain ⟨w1, hw1⟩ := Option.isSome_iff_exists.mp
    (dispatchLoop_isSome ((w.conns conn).input.length + 1) (registerClient w conn).2 conn
      w.hub.nextUserID (by rw [registerClient_conns]; omega))
  have hhub := dispatchLoop_hub _ _ _ _ _ hw1
  have hclients : ((unregisterClient w1 w.hub.nextUserID).close conn).hub.clients
      = w.hub.clients := by
    show mapDelete w1.hub.clients w.hub.nextUserID = w.hub.clients
    rw [hhub]
    exact mapDelete_mapSet_absent _ _ _ hfresh
  refine ⟨(unregisterClient w1 w.hub.nextUserID).close conn, ?_, ?_, ?_, hclients, ?_, ?_⟩
  · rw [handleConnection_eq, hw1]
    rfl
  · rw [hclients]
    exact hfresh
  · intro k
    rw [hclients]
  · show w1.hub.nextUserID = w.hub.nextUserID + 1
    rw [hhub]
    exact Nat.mod_eq_of_lt hmax
  · simp [World.close]

/-- C13, witness: a fourth connection joins the three clients, asks for the
list and leaves. -/
theorem handleConnection_lifecycle_witness :
    ∃ w2, handleConnection (threeClients.setInput 13 [1]) 13 = some w2 ∧
      mapGet w2.hub.clients (registerClient (threeClients.setInput 13 [1]) 13).1 = none ∧
      (∀ k, mapGet w2.hub.clients k = mapGet (threeClients.setInput 13 [1]).hub.clients k) ∧
      w2.hub.clients = (threeClients.setInput 13 [1]).hub.clients ∧
      w2.hub.nextUserID = (threeClients.setInput 13 [1]).hub.nextUserID + 1 ∧
      (w2.conns 13).closed = true :=
  handleConnection_lifecycle (threeClients.setInput 13 [1]) 13 (by decide) (by decide)

/-- C13, counterexample. In the state whose registry maps 5 to connection 10
and whose `nextUserID` is 5, a connection that is accepted and closes at once
takes the entry of 5 with it: 5 is no longer a key.  In the state whose
`nextUserID` is 2^64 - 1, `nextUserID` is 0 afterwards, not one greater. -/
theorem handleConnection_drops_entry_and_wraps :
    (handleConnection { hub := { clients := [(5, 10)], nextUserID := 5 },
                        conns := fun _ => idleConn } 11).map
        (fun w => mapGet w.hub.clients 5) = some none ∧
    (handleConnection { hub := { clients := [], nextUserID := 2 ^ 64 - 1 },
                        conns := fun _ => idleConn } 11).map
        (fun w => w.hub.nextUserID) = some 0 := by
  decide

theorem mem_mapKeys_mapDelete (m : List (Nat × Nat)) (k j : Nat)
    (h : j ∈ mapKeys (mapDelete m k)) : j ∈ mapKeys m :=
  ((List.filter_sublist m).map Prod.fst).subset h

/-- Along registry calls that do not exhaust the counter, every key stays
below `nextUserID`, which counts the registrations. -/
theorem runCalls_keys_below_counter (w : World) (calls : List RegistryCall)
    (hlt : ∀ k ∈ mapKeys w.hub.clients, k < w.hub.nextUserID)
    (hn : w.hub.nextUserID + calls.countP isReg < 2 ^ 64) :
    (runCalls w calls).2.hub.nextUserID = w.hub.nextUserID + calls.countP isReg ∧
    ∀ k ∈ mapKeys (runCalls w calls).2.hub.clients, k < (runCalls w calls).2.hub.nextUserID := by
  induction calls generalizing w with
  | nil => exact ⟨rfl, hlt⟩
  | cons call calls ih =>
    cases call with
    | register conn =>
      rw [List.countP_cons_of_pos _ _ (show isReg (RegistryCall.register conn) = true from rfl)]
        at hn ⊢
      have hnext : (registerClient w conn).2.hub.nextUserID = w.hub.nextUserID + 1 :=
        Nat.mod_eq_of_lt (by omega)
      have hlt2 : ∀ k ∈ mapKeys (registerClient w conn).2.hub.clients,
          k < (registerClient w conn).2.hub.nextUserID := by
        intro k hk
        rw [hnext]
        have hk2 : k ∈ mapKeys (mapDelete w.hub.clients w.hub.nextUserID) ++ [w.hub.nextUserID] := by
          simpa [registerClient, mapSet, mapKeys] using hk
        rcases List.mem_append.mp hk2 with h1 | h1
        · have := hlt k (mem_mapKeys_mapDelete _ _ _ h1)
          omega
        · rw [List.mem_singleton] at h1
          omega
      have := ih (registerClient w conn).2 hlt2 (by rw [hnext]; omega)
      simp only [runCalls]
      rw [hnext] at this
      exact ⟨by rw [this.1]; omega, this.2⟩
    | unregister userID =>
      rw [List.countP_cons_of_neg _ _ (show ¬ isReg (RegistryCall.unregister userID) = true from
        by simp [isReg])] at hn ⊢
      have hlt2 : ∀ k ∈ mapKeys (unregisterClient w userID).hub.clients,
          k < (unregisterClient w userID).hub.nextUserID :=
        fun k hk => hlt k (mem_mapKeys_mapDelete _ _ _ hk)
      exact ih (unregisterClient w userID) hlt2 hn

/-- Every state reached from `NewHub` by fewer than 2^64 - 2 registrations has
a `nextUserID` that is not a key and is below 2^64 - 1. -/
theorem runCalls_counter_fresh (conns : Nat → Conn) (calls : List RegistryCall)
    (h : calls.countP isReg + 2 < 2 ^ 64) :
    mapGet (runCalls { hub := NewHub, conns := conns } calls).2.hub.clients
        (runCalls { hub := NewHub, conns := conns } calls).2.hub.nextUserID = none ∧
    (runCalls { hub := NewHub, conns := conns } calls).2.hub.nextUserID + 1 < 2 ^ 64 := by
  have hinv := runCalls_keys_below_counter { hub := NewHub, conns := conns } calls
    (by intro k hk; simp [NewHub, mapKeys] at hk) (by simp only [NewHub]; omega)
  constructor
  · cases hg : mapGet (runCalls { hub := NewHub, conns := conns } calls).2.hub.clients
        (runCalls { hub := NewHub, conns := conns } calls).2.hub.nextUserID with
    | none => rfl
    | some c =>
      have hmem := (mem_mapKeys_iff _ _).mpr (by rw [hg]; rfl)
      exact absurd (hinv.2 _ hmem) (Nat.lt_irrefl _)
  · rw [hinv.1]
    simp only [NewHub]
    omega

/-! ## The list response on the wire -/

theorem toBE_two (v : Nat) : toBE 2 v = [v / 256 % 256, v % 256] := by
  simp [toBE]

theorem encoded_ids_length (ids : List Nat) : ((ids.map (toBE 8)).flatten).length = 8 * ids.length := by
  induction ids with
  | nil => rfl
  | cons u us ih =>
    rw [List.map_cons, List.flatten_cons, List.length_append, toBE_length, ih, List.length_cons]
    omega

theorem readUserIDs_encoded (ids rest : List Nat) (hid : ∀ k ∈ ids, k < 2 ^ 64) :
    readUserIDs ids.length ((ids.map (toBE 8)).flatten ++ rest) = (some ids, rest) := by
  induction ids with
  | nil => rfl
  | cons u us ih =>
    have hu : u % 256 ^ 8 = u :=
      Nat.mod_eq_of_lt (by have := hid u (List.mem_cons_self _ _); norm_num at this ⊢; exact this)
    have ih2 := ih (fun k hk => hid k (List.mem_cons_of_mem _ hk))
    simp only [List.length_cons, readUserIDs, List.map_cons, List.flatten_cons, List.append_assoc,
      binaryRead_toBE, hu, ih2]

theorem SendListMessage_encoded (ids rest : List Nat) (hlen : ids.length < 65536)
    (hid : ∀ k ∈ ids, k < 2 ^ 64) :
    SendListMessage (toBE 2 ids.length ++ (ids.map (toBE 8)).flatten ++ rest)
      = ([1], some ids, rest) := by
  have h2 : ids.length % 256 ^ 2 = ids.length := Nat.mod_eq_of_lt (by norm_num; exact hlen)
  simp only [SendListMessage, List.append_assoc, binaryRead_toBE, h2, readUserIDs_encoded _ _ hid]
  rfl

/-- C11, as amended. For every registry whose keys are `uint64` values, every
excluded identity that leaves at most 65535 identities to list, and a
connection whose transport accepts the writes, the bytes `HandleListMessage`
writes are the number `n` of listed identities on 2 big-endian bytes followed
by exactly those `n` identities on 8 big-endian bytes each (`2 + 8 n` bytes);
`SendListMessage` decodes them to exactly the identities sent and leaves
exactly the bytes that follow. -/
theorem list_response_wire_format (w : World) (conn x : Nat) (rest : List Nat)
    (hb : (w.conns conn).budget = none)
    (hlen : (listUserIDs w.hub x).length < 65536)
    (hkeys : ∀ k ∈ mapKeys w.hub.clients, k < 2 ^ 64) :
    (HandleListMessage w conn x).conns conn
      = { w.conns conn with
          output := (w.conns conn).output ++ toBE 2 (listUserIDs w.hub x).length
            ++ ((listUserIDs w.hub x).map (toBE 8)).flatten } ∧
    toBE 2 (listUserIDs w.hub x).length
      = [(listUserIDs w.hub x).length / 256 % 256, (listUserIDs w.hub x).length % 256] ∧
    fromBE (toBE 2 (listUserIDs w.hub x).length) = (listUserIDs w.hub x).length ∧
    (((listUserIDs w.hub x).map (toBE 8)).flatten).length = 8 * (listUserIDs w.hub x).length ∧
    SendListMessage (toBE 2 (listUserIDs w.hub x).length
        ++ ((listUserIDs w.hub x).map (toBE 8)).flatten ++ rest)
      = ([1], some (listUserIDs w.hub x), rest) := by
  refine ⟨HandleListMessage_conns_same w conn x hb, toBE_two _, ?_, encoded_ids_length _,
    SendListMessage_encoded _ _ hlen ?_⟩
  · rw [fromBE_toBE]
    exact Nat.mod_eq_of_lt (by norm_num; exact hlen)
  · intro k hk
    exact hkeys k (List.mem_of_mem_filter hk)

/-- C11, witness: the list sent to the client with identity 1 of three. -/
theorem list_response_wire_format_witness :
    SendListMessage (toBE 2 (listUserIDs threeClients.hub 1).length
        ++ ((listUserIDs threeClients.hub 1).map (toBE 8)).flatten ++ [2])
      = ([1], some (listUserIDs threeClients.hub 1), [2]) :=
  (list_response_wire_format threeClients 10 1 [2] rfl (by decide) (by decide)).2.2.2.2

theorem listUserIDs_range (n m N : Nat) (hN : N = n + 1) :
    listUserIDs { clients := (List.range N).map (fun i => (i + 1, i + 10)), nextUserID := m } 1
      = (List.range n).map (fun i => i + 2) := by
  subst hN
  simp only [listUserIDs, mapKeys, List.map_map, List.range_succ_eq_map, List.map_cons,
    Function.comp]
  rw [List.filter_cons_of_neg (by simp)]
  apply List.filter_eq_self.mpr
  intro a ha
  obtain ⟨i, _, hi⟩ := List.mem_map.mp ha
  have hi2 : a = i + 1 + 1 := hi.symm
  simp only [decide_eq_true_eq]
  omega

/-- C11, counterexample. With the 65537 identities 1, ..., 65537 registered,
the list for the client with identity 1 has 65536 identities; the count field
written is 0, 0 (65536 truncated to 16 bits) and the 65536 identities follow
it.  `SendListMessage` returns an empty list and leaves their 524288 bytes on
the stream. -/
theorem list_response_count_truncated :
    (listUserIDs crowdedWorld.hub 1).length = 65536 ∧
    toBE 2 (listUserIDs crowdedWorld.hub 1).length = [0, 0] ∧
    ((HandleListMessage crowdedWorld 10 1).conns 10).output
      = [0, 0] ++ ((listUserIDs crowdedWorld.hub 1).map (toBE 8)).flatten ∧
    (SendListMessage ((HandleListMessage crowdedWorld 10 1).conns 10).output).2.1 = some [] ∧
    (SendListMessage ((HandleListMessage crowdedWorld 10 1).conns 10).output).2.2.length
      = 524288 := by
  have hids : listUserIDs crowdedWorld.hub 1 = (List.range 65536).map (fun i => i + 2) :=
    listUserIDs_range 65536 65538 65537 (by norm_num)
  have hlen : (listUserIDs crowdedWorld.hub 1).length = 65536 := by
    rw [hids, List.length_map, List.length_range]
  have hcount : toBE 2 (listUserIDs crowdedWorld.hub 1).length = [0, 0] := by
    rw [hlen]
    decide
  have hout : ((HandleListMessage crowdedWorld 10 1).conns 10).output
      = [0, 0] ++ ((listUserIDs crowdedWorld.hub 1).map (toBE 8)).flatten := by
    rw [HandleListMessage_conns_same crowdedWorld 10 1 rfl, hcount]
    rfl
  have hdec : ∀ bs : List Nat, SendListMessage ([0, 0] ++ bs) = ([1], some [], bs) := by
    intro bs
    simp [SendListMessage, binaryRead, readFull, fromBE, readUserIDs, toBE, ListMessage]
  refine ⟨hlen, hcount, hout, ?_, ?_⟩
  · rw [hout, hdec]
  · rw [hout, hdec]
    dsimp only
    rw [encoded_ids_length, hlen]

end MessageHub
